import Mathlib

/-!
Verification development for the `edict` ECS storage/query core.

Rust source files are embedded shallowly: machine integers become `Nat`
(the epoch counter is a monotone `u64` that the code assumes never
overflows), fallible operations return `Except`/`Option`, raw columnar
storage becomes lists, and pointer-based state machines become explicit
state passing.  Parts of the crate that are referenced by the embedded
files but are not present in the source tree (the entity directory,
archetype storage internals, the `Edges` cache) are modelled from the
specification and marked as such in their doc comments.
-/

set_option maxRecDepth 8192

namespace Edict

/-! ## Epoch model (src/epoch.rs)

`EpochId` is a transparent `u64`; `before`/`after` are strict comparisons.
We embed it as `Nat`. -/

/-- `EpochId::after`: strict `>` on the underlying counter value. -/
def epochAfter (x y : Nat) : Bool := decide (y < x)

/-- `EpochId::before`: strict `<` on the underlying counter value. -/
def epochBefore (x y : Nat) : Bool := decide (x < y)

/-! ## Spawn reservation (src/world/mod.rs, `spawn_reserve`) -/

/-- `MAX_SPAWN_RESERVE` from src/world/mod.rs. -/
def MAX_SPAWN_RESERVE : Nat := 1024

/-- Number of rows reserved by `spawn_reserve` given the bundle iterator's
`size_hint() = (lower, upper)`.  Mirrors the `match` in src/world/mod.rs:
`(lower, None) => lower`, `(lower, Some(upper)) => lower.max(upper.min(MAX_SPAWN_RESERVE))`. -/
def spawn_reserve_additional (lower : Nat) (upper : Option Nat) : Nat :=
  match upper with
  | none => lower
  | some u => max lower (min u MAX_SPAWN_RESERVE)

/-! ## Action buffer (src/action/buffer.rs)

An action is a callback that mutates the world and may record further
actions into the same buffer.  We embed an action as a finite tree: its
observable identifier together with the list of actions it enqueues when
executed (each enqueued action is again such a tree).  `execute` pops the
front of the FIFO queue, runs the action (appending its enqueued actions
at the back of the queue) and repeats until the queue is empty. -/

/-- A deferred action: an observable id plus the actions it enqueues into
the buffer when executed. -/
inductive Action where
  | mk (id : Nat) (spawns : List Action)

/-- Identifier of an action. -/
def Action.ident : Action → Nat
  | .mk i _ => i

/-- Actions enqueued by an action when it is executed. -/
def Action.spawns : Action → List Action
  | .mk _ s => s

mutual
/-- Size of an action tree: the total number of actions it will cause to run. -/
def Action.size : Action → Nat
  | .mk _ s => 1 + Action.sizeL s

/-- Total size of a list of action trees. -/
def Action.sizeL : List Action → Nat
  | [] => 0
  | a :: rest => Action.size a + Action.sizeL rest
end

theorem Action.size_pos (a : Action) : 0 < a.size := by
  cases a with
  | mk i s => simp [Action.size]

theorem Action.size_eq (a : Action) : a.size = 1 + Action.sizeL a.spawns := by
  cases a with
  | mk i s => rfl

theorem Action.sizeL_append (p q : List Action) :
    Action.sizeL (p ++ q) = Action.sizeL p + Action.sizeL q := by
  induction p with
  | nil => simp [Action.sizeL]
  | cons a rest ih => simp [Action.sizeL, ih]; omega

/-- Trace of `ActionBuffer::execute`'s drain loop: ids of executed actions
in execution order.  `while let Some(fun) = self.actions.pop_front()`
pops the front; the action's own enqueues are pushed at the back. -/
def execTrace (q : List Action) : List Nat :=
  match q with
  | [] => []
  | a :: rest => a.ident :: execTrace (rest ++ a.spawns)
termination_by Action.sizeL q
decreasing_by
  simp [Action.sizeL_append, Action.sizeL, Action.size_eq a]
  omega

/-- Return value of `ActionBuffer::execute`: `false` on an empty buffer,
`true` otherwise (the loop then executes at least one action). -/
def execReturns (q : List Action) : Bool := !q.isEmpty

/-- All action ids reachable from a queue: each queued action and,
recursively, everything it will enqueue. -/
def allIds (q : List Action) : List Nat :=
  match q with
  | [] => []
  | a :: rest => a.ident :: (allIds a.spawns ++ allIds rest)
termination_by Action.sizeL q
decreasing_by
  all_goals simp [Action.sizeL, Action.size_eq a]
  all_goals omega

theorem allIds_append (p q : List Action) :
    allIds (p ++ q) = allIds p ++ allIds q := by
  induction p with
  | nil => simp [allIds]
  | cons a rest ih => simp [allIds, ih]

theorem execTrace_perm (q : List Action) : (execTrace q).Perm (allIds q) := by
  generalize h : Action.sizeL q = n
  induction n using Nat.strong_induction_on generalizing q with
  | _ n ih =>
    cases q with
    | nil => simp [execTrace, allIds]
    | cons a rest =>
      simp only [execTrace, allIds]
      refine List.Perm.cons a.ident ?_
      have hsz : Action.sizeL (rest ++ a.spawns) < n := by
        rw [← h]
        simp [Action.sizeL_append, Action.sizeL, Action.size_eq a]
        omega
      have hperm := ih _ hsz (rest ++ a.spawns) rfl
      rw [allIds_append] at hperm
      exact hperm.trans List.perm_append_comm

theorem execTrace_fifo_prefix (q : List Action) :
    (execTrace q).take q.length = q.map Action.ident := by
  generalize h : Action.sizeL q = n
  induction n using Nat.strong_induction_on generalizing q with
  | _ n ih =>
    cases q with
    | nil => simp [execTrace]
    | cons a rest =>
      simp only [execTrace, List.length_cons, List.take_succ_cons, List.map_cons]
      congr 1
      have hsz : Action.sizeL (rest ++ a.spawns) < n := by
        rw [← h]
        simp [Action.sizeL_append, Action.sizeL, Action.size_eq a]
        omega
      have hall := ih _ hsz (rest ++ a.spawns) rfl
      have hle : rest.length ≤ (rest ++ a.spawns).length := by simp
      calc List.take rest.length (execTrace (rest ++ a.spawns))
          = List.take rest.length
              (List.take (rest ++ a.spawns).length (execTrace (rest ++ a.spawns))) := by
            rw [List.take_take, Nat.min_eq_left hle]
        _ = List.take rest.length (List.map Action.ident (rest ++ a.spawns)) := by rw [hall]
        _ = List.map Action.ident rest := by
            rw [List.map_append, List.take_append_of_le_length (by simp)]
            simp

/-! ## Chunk geometry

Modelled from the spec: `CHUNK_LEN`, `chunk_idx` and `first_of_chunk` live
in the crate's `archetype` module, which is not part of the source tree.
The spec fixes chunks of a power-of-two width, 16×16 = 256 rows, with
`index → chunk index` by division. -/

/-- Modelled from the spec: chunk width of archetype storage (§3, Archetype):
"chunks of a fixed power-of-two width `CHUNK_LEN` (the reference uses
16×16 = 256-row chunks)". -/
def CHUNK_LEN : Nat := 256

/-- Modelled from the spec: chunk index of a row index (row index divided by
the chunk width). -/
def chunk_idx (i : Nat) : Nat := i / CHUNK_LEN

/-- Modelled from the spec: `first_of_chunk` returns the chunk index when the
row index is the first row of its chunk, `none` otherwise. -/
def first_of_chunk (i : Nat) : Option Nat :=
  if i % CHUNK_LEN = 0 then some (chunk_idx i) else none

/-! ## View iteration (src/view/iter.rs)

A `Fetch` is embedded by its two visit predicates; `touch_chunk` and
`get_item` are side effects, recorded as events in the iteration trace. -/

/-- Visit predicates of a `Fetch` (src/query): `visit_chunk` and
`visit_item`. -/
structure FetchPred where
  visitChunk : Nat → Bool
  visitItem : Nat → Bool

/-- Observable events of one archetype's row loop: `touch_chunk` on the
filter fetch, `touch_chunk` on the query fetch, and `get_item` on the
query fetch. -/
inductive IterEv where
  | touchFilter (c : Nat)
  | touchQuery (c : Nat)
  | getItem (i : Nat)
deriving DecidableEq

/-- Row loop of `ViewValueIter::next` (src/view/iter.rs lines 242-272) over
one archetype of `n` rows, starting at row `i` with pending-touch flag
`touch`.  At a chunk boundary (`first_of_chunk` is `some`) the filter's
`visit_chunk` is checked, then the query's; on failure `indices.nth(CHUNK_LEN - 1)`
skips the remaining rows of the chunk.  On success the touch flag is armed.
Then `visit_item` of the filter and of the query; on the first matched item
of a chunk both fetches' `touch_chunk` run, then `get_item`.  The `fuel`
argument bounds the number of loop iterations (each iteration advances the
row index by at least one, so `fuel = n - i` is enough). -/
def iterLoop (f q : FetchPred) : Nat → Nat → Nat → Bool → List IterEv
  | 0, _, _, _ => []
  | Nat.succ fuel, n, i, touch =>
    if i ≥ n then []
    else if i % CHUNK_LEN = 0 && !f.visitChunk (chunk_idx i) then
      iterLoop f q fuel n (i + CHUNK_LEN) touch
    else if i % CHUNK_LEN = 0 && !q.visitChunk (chunk_idx i) then
      iterLoop f q fuel n (i + CHUNK_LEN) touch
    else
      let touch' := if i % CHUNK_LEN = 0 then true else touch
      if !f.visitItem i then iterLoop f q fuel n (i + 1) touch'
      else if !q.visitItem i then iterLoop f q fuel n (i + 1) touch'
      else if touch' then
        .touchFilter (chunk_idx i) :: .touchQuery (chunk_idx i) ::
          .getItem i :: iterLoop f q fuel n (i + 1) false
      else .getItem i :: iterLoop f q fuel n (i + 1) false

/-- Trace of `ViewValueIter::next` over one archetype with `n` rows. -/
def iterNext (f q : FetchPred) (n : Nat) : List IterEv :=
  iterLoop f q n n 0 false

/-- Per-archetype row loop of `ViewValueIter::fold` (src/view/iter.rs lines
333-363).  It checks the query's `visit_chunk` before the filter's, and on
a failed chunk check it calls `self.indices.nth(CHUNK_LEN - 1)` — but
`self.indices` is the already-exhausted outer range, not the local
`indices` driving this loop, so no rows are skipped and `continue` merely
moves to the next row. -/
def foldLoop (f q : FetchPred) : Nat → Nat → Nat → Bool → List IterEv
  | 0, _, _, _ => []
  | Nat.succ fuel, n, i, touch =>
    if i ≥ n then []
    else if i % CHUNK_LEN = 0 && !q.visitChunk (chunk_idx i) then
      foldLoop f q fuel n (i + 1) touch
    else if i % CHUNK_LEN = 0 && !f.visitChunk (chunk_idx i) then
      foldLoop f q fuel n (i + 1) touch
    else
      let touch' := if i % CHUNK_LEN = 0 then true else touch
      if !f.visitItem i then foldLoop f q fuel n (i + 1) touch'
      else if !q.visitItem i then foldLoop f q fuel n (i + 1) touch'
      else if touch' then
        .touchFilter (chunk_idx i) :: .touchQuery (chunk_idx i) ::
          .getItem i :: foldLoop f q fuel n (i + 1) false
      else .getItem i :: foldLoop f q fuel n (i + 1) false

/-- Trace of the `fold` archetype loop over one archetype with `n` rows. -/
def iterFold (f q : FetchPred) (n : Nat) : List IterEv :=
  foldLoop f q n n 0 false

/-- Rows passed to `get_item`, in trace order. -/
def getsOf (evs : List IterEv) : List Nat :=
  evs.filterMap fun e =>
    match e with
    | .getItem i => some i
    | _ => none

/-- Chunks passed to the query fetch's `touch_chunk`, in trace order. -/
def touchesQ (evs : List IterEv) : List Nat :=
  evs.filterMap fun e =>
    match e with
    | .touchQuery c => some c
    | _ => none

/-- Both fetches accept the chunk holding row `i`. -/
def chunkOK (f q : FetchPred) (i : Nat) : Bool :=
  f.visitChunk (chunk_idx i) && q.visitChunk (chunk_idx i)

/-- Both fetches accept row `i` itself. -/
def itemOK (f q : FetchPred) (i : Nat) : Bool :=
  f.visitItem i && q.visitItem i

/-- Row `i` is yielded: its chunk and the row itself pass both fetches. -/
def rowOK (f q : FetchPred) (i : Nat) : Bool :=
  chunkOK f q i && itemOK f q i

theorem chunk_idx_stable {i j : Nat} (hb : i % CHUNK_LEN = 0)
    (h1 : i ≤ j) (h2 : j < i + CHUNK_LEN) : chunk_idx j = chunk_idx i := by
  simp only [chunk_idx, CHUNK_LEN] at *
  omega

theorem chunk_idx_succ {i : Nat} (h : ¬ (i + 1) % CHUNK_LEN = 0) :
    chunk_idx (i + 1) = chunk_idx i := by
  simp only [chunk_idx, CHUNK_LEN] at *
  omega

theorem getsOf_nil : getsOf [] = [] := rfl

theorem getsOf_touchFilter (c : Nat) (evs : List IterEv) :
    getsOf (.touchFilter c :: evs) = getsOf evs := rfl

theorem getsOf_touchQuery (c : Nat) (evs : List IterEv) :
    getsOf (.touchQuery c :: evs) = getsOf evs := rfl

theorem getsOf_getItem (i : Nat) (evs : List IterEv) :
    getsOf (.getItem i :: evs) = i :: getsOf evs := rfl

theorem filter_rowOK_chunk_nil (f q : FetchPred) {i m : Nat}
    (hb : i % CHUNK_LEN = 0) (hc : chunkOK f q i = false) (hm : m ≤ CHUNK_LEN) :
    (List.range' i m).filter (rowOK f q) = [] := by
  rw [List.filter_eq_nil_iff]
  intro j hj
  rw [List.mem_range'_1] at hj
  have hidx : chunk_idx j = chunk_idx i := chunk_idx_stable hb hj.1 (by omega)
  intro hcontra
  simp only [rowOK, chunkOK, hidx, Bool.and_eq_true] at hcontra
  simp only [chunkOK, Bool.and_eq_false_iff] at hc
  rcases hc with h | h <;> simp [h] at hcontra

theorem iterLoop_stop {f q : FetchPred} {fuel n i : Nat} {touch : Bool} (h : i ≥ n) :
    iterLoop f q fuel n i touch = [] := by
  cases fuel <;> simp [iterLoop, h]

theorem iterLoop_skip {f q : FetchPred} {fuel n i : Nat} {touch : Bool}
    (h : ¬ i ≥ n) (hb : i % CHUNK_LEN = 0)
    (hc : chunkOK f q i = false) :
    iterLoop f q (fuel + 1) n i touch = iterLoop f q fuel n (i + CHUNK_LEN) touch := by
  simp only [chunkOK, Bool.and_eq_false_iff] at hc
  rcases hc with hfc | hqc
  · simp [iterLoop, h, hb, hfc]
  · simp [iterLoop, h, hb, hqc]

theorem iterLoop_enter {f q : FetchPred} {fuel n i : Nat} {touch : Bool}
    (h : ¬ i ≥ n)
    (hok : ¬ i % CHUNK_LEN = 0 ∨ chunkOK f q i = true) :
    iterLoop f q (fuel + 1) n i touch =
      (let touch' := if i % CHUNK_LEN = 0 then true else touch
       if !f.visitItem i then iterLoop f q fuel n (i + 1) touch'
       else if !q.visitItem i then iterLoop f q fuel n (i + 1) touch'
       else if touch' then
         .touchFilter (chunk_idx i) :: .touchQuery (chunk_idx i) ::
           .getItem i :: iterLoop f q fuel n (i + 1) false
       else .getItem i :: iterLoop f q fuel n (i + 1) false) := by
  rcases hok with hb | hchunk
  · simp [iterLoop, h, hb]
  · simp only [chunkOK, Bool.and_eq_true] at hchunk
    by_cases hb : i % CHUNK_LEN = 0
    · simp [iterLoop, h, hb, hchunk.1, hchunk.2]
    · simp [iterLoop, h, hb]

/-- The rows yielded by the `next` loop starting at row `i` are exactly the
rows `≥ i` accepted by both fetches at chunk and item level, in ascending
order.  The side condition states that `i` is either a chunk boundary or a
row of an already-accepted chunk. -/
theorem iterLoop_gets (f q : FetchPred) :
    ∀ fuel n i touch, n ≤ i + fuel →
      (i % CHUNK_LEN = 0 ∨ chunkOK f q i = true) →
      getsOf (iterLoop f q fuel n i touch) = (List.range' i (n - i)).filter (rowOK f q) := by
  intro fuel
  induction fuel with
  | zero =>
    intro n i touch hfuel _
    have : n - i = 0 := by omega
    simp [iterLoop, getsOf, this]
  | succ fuel ih =>
    intro n i touch hfuel hside
    have c256 : CHUNK_LEN = 256 := rfl
    by_cases hin : i ≥ n
    · have : n - i = 0 := by omega
      simp [iterLoop_stop hin, getsOf, this]
    · by_cases hchunk : chunkOK f q i = true
      · -- the chunk of row i is accepted: the item checks run
        have hstep := @iterLoop_enter f q fuel n i touch hin (Or.inr hchunk)
        have hside' : (i + 1) % CHUNK_LEN = 0 ∨ chunkOK f q (i + 1) = true := by
          by_cases hb1 : (i + 1) % CHUNK_LEN = 0
          · exact Or.inl hb1
          · refine Or.inr ?_
            rw [chunkOK, chunk_idx_succ hb1, ← chunkOK]
            exact hchunk
        have hrec : ∀ t, getsOf (iterLoop f q fuel n (i + 1) t)
            = (List.range' (i + 1) (n - (i + 1))).filter (rowOK f q) :=
          fun t => ih n (i + 1) t (by omega) hside'
        have hrange : List.range' i (n - i) = i :: List.range' (i + 1) (n - (i + 1)) := by
          have h1 : n - i = (n - (i + 1)) + 1 := by omega
          rw [h1, List.range'_succ]
        rw [hstep, hrange, List.filter_cons]
        by_cases hfi : f.visitItem i = true
        · by_cases hqi : q.visitItem i = true
          · have hrow : rowOK f q i = true := by simp [rowOK, itemOK, hchunk, hfi, hqi]
            simp [hrow, hfi, hqi]
            split <;>
              simp [getsOf_touchFilter, getsOf_touchQuery, getsOf_getItem, hrec]
          · have hrow : rowOK f q i = false := by simp [rowOK, itemOK, hqi]
            have hqi' : q.visitItem i = false := by
              cases hqv : q.visitItem i
              · rfl
              · exact absurd hqv hqi
            simp [hrow, hfi, hqi', hrec]
        · have hrow : rowOK f q i = false := by simp [rowOK, itemOK, hfi]
          have hfi' : f.visitItem i = false := by
            cases hfv : f.visitItem i
            · rfl
            · exact absurd hfv hfi
          simp [hrow, hfi', hrec]
      · -- the chunk of row i is rejected: CHUNK_LEN rows are skipped
        have hb : i % CHUNK_LEN = 0 := by
          rcases hside with hb | hc
          · exact hb
          · exact absurd hc hchunk
        have hchunk' : chunkOK f q i = false := by
          cases hcv : chunkOK f q i
          · rfl
          · exact absurd hcv hchunk
        rw [iterLoop_skip hin hb hchunk',
          ih n (i + CHUNK_LEN) touch (by omega)
            (Or.inl (by simp only [CHUNK_LEN] at hb ⊢; omega))]
        by_cases hsmall : n - i ≤ CHUNK_LEN
        · have h0 : n - (i + CHUNK_LEN) = 0 := by omega
          rw [h0, List.range'_zero, List.filter_nil,
            filter_rowOK_chunk_nil f q hb hchunk' hsmall]
        · have hsplit : List.range' i CHUNK_LEN ++
              List.range' (i + CHUNK_LEN) (n - i - CHUNK_LEN) = List.range' i (n - i) := by
            rw [List.range'_append_1]
            congr 1
            omega
          rw [← hsplit, List.filter_append,
            filter_rowOK_chunk_nil f q hb hchunk' (Nat.le_refl _), List.nil_append,
            show n - (i + CHUNK_LEN) = n - i - CHUNK_LEN from by omega]

/-! ## Modified queries (src/query/modified/with.rs, src/query/modified/alt.rs)

`Modified<Q>` stores `after_epoch`.  `visit_archetype` inspects the target
column's archetype-level epoch; the fetch keeps pointers to the column's
per-chunk and per-row epochs, embedded here as lists. -/

/-- `Modified<..>::visit_archetype`: `false` when the archetype has no `T`
column, otherwise `data.epoch.after(self.after_epoch)` on the column's
archetype-level epoch (identical in `Modified<With<T>>` and
`Modified<Alt<T>>`). -/
def modifiedVisitArchetype (after_epoch : Nat) (colEpoch : Option Nat) : Bool :=
  match colEpoch with
  | none => false
  | some e => epochAfter e after_epoch

/-- State of `ModifiedFetchWith` / `ModifiedFetchAlt`: the stored
`after_epoch` plus the column's per-row and per-chunk epoch arrays. -/
structure ModifiedFetch where
  after_epoch : Nat
  entity_epochs : List Nat
  chunk_epochs : List Nat

/-- `Fetch::visit_chunk` of a modified fetch:
`chunk_epochs[chunk_idx].after(after_epoch)`. -/
def ModifiedFetch.visit_chunk (m : ModifiedFetch) (c : Nat) : Bool :=
  epochAfter (m.chunk_epochs.getD c 0) m.after_epoch

/-- `Fetch::visit_item` of a modified fetch:
`entity_epochs[idx].after(after_epoch)`. -/
def ModifiedFetch.visit_item (m : ModifiedFetch) (i : Nat) : Bool :=
  epochAfter (m.entity_epochs.getD i 0) m.after_epoch

/-- The visit predicates of a modified fetch, for the view iterator. -/
def ModifiedFetch.toPred (m : ModifiedFetch) : FetchPred :=
  ⟨m.visit_chunk, m.visit_item⟩

/-- Fetch of the unit filter `()`: every chunk and every row is visited. -/
def unitFilter : FetchPred := ⟨fun _ => true, fun _ => true⟩

/-- C1: For every `Modified<Q>` query with stored `after_epoch = k`:
`visit_archetype` returns true only if the target column's archetype-level
epoch strictly exceeds `k`; the fetch's `visit_chunk` returns true only if
the chunk's epoch is strictly after `k`; `visit_item` returns true only if
the row's entity epoch is strictly after `k`; and — given the epoch
invariant that each row's entity epoch is dominated by its chunk's epoch —
the view iteration visits exactly the rows whose entity epoch was written
strictly after `k`, in ascending order. -/
theorem modified_query_visits_exactly
    (k n : Nat) (cE eE : List Nat)
    (hinv : ∀ i, i < n → eE.getD i 0 ≤ cE.getD (chunk_idx i) 0) :
    (∀ col, modifiedVisitArchetype k col = true → ∃ e, col = some e ∧ k < e) ∧
    (∀ c, (ModifiedFetch.mk k eE cE).visit_chunk c = true → k < cE.getD c 0) ∧
    (∀ i, (ModifiedFetch.mk k eE cE).visit_item i = true → k < eE.getD i 0) ∧
    getsOf (iterNext unitFilter (ModifiedFetch.mk k eE cE).toPred n)
      = (List.range n).filter (fun i => decide (k < eE.getD i 0)) := by
  refine ⟨?_, ?_, ?_, ?_⟩
  · intro col h
    cases col with
    | none => simp [modifiedVisitArchetype] at h
    | some e =>
      refine ⟨e, rfl, ?_⟩
      simpa [modifiedVisitArchetype, epochAfter] using h
  · intro c h
    simpa [ModifiedFetch.visit_chunk, epochAfter] using h
  · intro i h
    simpa [ModifiedFetch.visit_item, epochAfter] using h
  · rw [iterNext,
      iterLoop_gets unitFilter (ModifiedFetch.mk k eE cE).toPred n n 0 false
        (by omega) (Or.inl (by simp [CHUNK_LEN])),
      Nat.sub_zero, ← List.range_eq_range']
    refine List.filter_congr ?_
    intro i hi
    rw [List.mem_range] at hi
    have hdom := hinv i hi
    simp only [List.getD, List.get?_eq_getElem?] at hdom
    simp only [rowOK, chunkOK, itemOK, unitFilter, ModifiedFetch.toPred,
      ModifiedFetch.visit_chunk, ModifiedFetch.visit_item, epochAfter,
      Bool.true_and, List.getD]
    by_cases hke : k < eE[i]?.getD 0
    · have hc : k < cE[chunk_idx i]?.getD 0 := by omega
      simp [hke, hc]
    · simp [hke]

/-- Witness for C1: a two-row archetype whose chunk epoch is 9; row 0 was
written at epoch 9, row 1 at epoch 3; with `after_epoch = 5` the iteration
yields exactly row 0. -/
theorem modified_query_visits_exactly_witness :
    (∀ i, i < 2 → [9, 3].getD i 0 ≤ [9].getD (chunk_idx i) 0) ∧
    ((∀ col, modifiedVisitArchetype 5 col = true → ∃ e, col = some e ∧ 5 < e) ∧
     (∀ c, (ModifiedFetch.mk 5 [9, 3] [9]).visit_chunk c = true → 5 < [9].getD c 0) ∧
     (∀ i, (ModifiedFetch.mk 5 [9, 3] [9]).visit_item i = true → 5 < [9, 3].getD i 0) ∧
     getsOf (iterNext unitFilter (ModifiedFetch.mk 5 [9, 3] [9]).toPred 2)
       = (List.range 2).filter (fun i => decide (5 < [9, 3].getD i 0))) :=
  ⟨by decide, modified_query_visits_exactly 5 2 [9] [9, 3] (by decide)⟩

/-- Query fetch used to exhibit the fold chunk-skip bug: its `visit_chunk`
always fails while its `visit_item` always passes (a column whose chunk
epoch is not after `after_epoch` but whose rows are individually checked). -/
def chunkRejectQuery : FetchPred := ⟨fun _ => false, fun _ => true⟩

/-- C3: the `next` path of the view iterator skips the whole chunk when
`visit_chunk` fails, yielding nothing here, but the `fold` path — whose
chunk-skip mistakenly advances the exhausted `self.indices` instead of the
local `indices` — still yields row 1 of the rejected chunk (and without
ever calling `touch_chunk`): the two paths disagree on the same input. -/
theorem view_iter_fold_chunk_skip_divergence :
    chunkRejectQuery.visitChunk (chunk_idx 1) = false ∧
    iterNext unitFilter chunkRejectQuery 2 = [] ∧
    iterFold unitFilter chunkRejectQuery 2 = [IterEv.getItem 1] := by
  refine ⟨rfl, ?_, ?_⟩ <;> decide

/-! ## Entity directory

Modelled from the spec: the `Entities` directory (spec §3 "Entity identity",
§4.1 "EntityDirectory") is not part of the source tree.  Each slot stores a
generation and either a location `(archetype, row)` or a free marker; a
handle resolves only when its generation matches; despawn bumps the
generation and frees the slot. -/

/-- An entity handle: slot index and generation (spec §6: "an opaque pair
(u32 slot, u32 generation)"). -/
structure EntityId where
  idx : Nat
  gen : Nat
deriving DecidableEq

/-- Modelled from the spec: a directory slot holds the current generation
and a location `(archetype index, row index)`, or `none` when free. -/
structure Slot where
  gen : Nat
  loc : Option (Nat × Nat)
deriving DecidableEq

/-- Modelled from the spec: the entity directory. -/
structure Entities where
  slots : List Slot
deriving DecidableEq

/-- Modelled from the spec: `Entities::get` — `None` when the slot index is
out of range, the slot is free, or the stored generation differs from the
handle's. -/
def entGet (ent : Entities) (e : EntityId) : Option (Nat × Nat) :=
  match ent.slots[e.idx]? with
  | none => none
  | some s => if s.gen = e.gen then s.loc else none

/-- Modelled from the spec: `Entities::spawn` — reuse the first free slot
(keeping its generation) or append a fresh slot with generation 0.  The
location is a placeholder until `set_location` is called. -/
def entSpawn (ent : Entities) : Entities × EntityId :=
  match ent.slots.findIdx? (fun s => s.loc.isNone) with
  | some i =>
    let g := ((ent.slots[i]?).getD ⟨0, none⟩).gen
    (⟨ent.slots.set i ⟨g, some (0, 0)⟩⟩, ⟨i, g⟩)
  | none => (⟨ent.slots ++ [⟨0, some (0, 0)⟩]⟩, ⟨ent.slots.length, 0⟩)

/-- Modelled from the spec: `Entities::set_location`. -/
def entSetLocation (ent : Entities) (idx : Nat) (arch row : Nat) : Entities :=
  ⟨ent.slots.set idx
    (match ent.slots[idx]? with
     | some s => { s with loc := some (arch, row) }
     | none => ⟨0, some (arch, row)⟩)⟩

/-- Modelled from the spec: `Entities::despawn` — returns the location and
frees the slot, bumping its generation; fails like `get` does. -/
def entDespawn (ent : Entities) (e : EntityId) : Option (Entities × Nat × Nat) :=
  match entGet ent e with
  | none => none
  | some (a, r) =>
    let g := ((ent.slots[e.idx]?).getD ⟨0, none⟩).gen
    some (⟨ent.slots.set e.idx ⟨g + 1, none⟩⟩, a, r)

/-! ## Archetype storage

Modelled from the spec (§3 "Archetype", §4.2): an archetype owns a set of
component type ids and a list of rows; each row stores the entity id and
one opaque value (a `Nat`, standing for the raw bytes) per component type.
Removal swap-removes: the last row is moved into the hole and its entity id
is reported so the directory can be fixed up.  Column epoch stamps are
embedded separately (see the `Modified` section); the world model below
tracks the global epoch counter, which is what claims about `World`
operations concern. -/

/-- One archetype row: the entity id plus `(type id, value)` pairs. -/
structure Row where
  id : EntityId
  comps : List (Nat × Nat)
deriving DecidableEq

/-- Modelled from the spec: columnar storage for one component-type set. -/
structure Archetype where
  types : List Nat
  rows : List Row
deriving DecidableEq

/-- `Archetype::contains_id`. -/
def Archetype.contains_id (a : Archetype) (t : Nat) : Bool := a.types.contains t

/-- Value of component `t` in a row. -/
def Row.getComp (r : Row) (t : Nat) : Option Nat :=
  (r.comps.find? (fun p => p.1 = t)).map Prod.snd

/-- Overwrite the value of an existing component `t` in a row. -/
def Row.setComp (r : Row) (t v : Nat) : Row :=
  { r with comps := r.comps.map (fun p => if p.1 = t then (t, v) else p) }

/-- Append a fresh component column value to a row (migration to an
archetype with one more type). -/
def Row.addComp (r : Row) (t v : Nat) : Row :=
  { r with comps := r.comps ++ [(t, v)] }

/-- Overwrite component `t` when present, append it otherwise
(`insert_bundle` writing one bundle component). -/
def Row.setOrAdd (r : Row) (t v : Nat) : Row :=
  if r.comps.any (fun p => p.1 = t) then r.setComp t v else r.addComp t v

/-- Drop every component not belonging to the given type set (migration to
an archetype with fewer types). -/
def Row.keepTypes (r : Row) (tys : List Nat) : Row :=
  { r with comps := r.comps.filter (fun p => tys.contains p.1) }

/-- `Vec::swap_remove` semantics: the last element is moved into the hole
and the list shrinks by one. -/
def listSwapRemove {α : Type} (l : List α) (i : Nat) : List α :=
  match l.getLast? with
  | none => []
  | some last => (l.set i last).dropLast

/-- Swap-remove row `i`; also reports the moved entity's id when the
removed row was not the last one (the caller updates the directory). -/
def rowsSwapRemove (rows : List Row) (i : Nat) : List Row × Option EntityId :=
  (listSwapRemove rows i,
   if i + 1 = rows.length then none
   else (rows.getLast?).map Row.id)

/-- Archetype at `i`, with an empty dummy outside the range (unreachable
for directory-consistent worlds). -/
def archAt (archs : List Archetype) (i : Nat) : Archetype :=
  (archs[i]?).getD ⟨[], []⟩

/-! ## Edges (archetype transitions)

Modelled from the spec (§4.6): cache misses "compute the destination's
sorted type-set, search for an existing archetype with that set, or create
a new one".  The cache itself is a pure memoisation, so the embedding
searches every time. -/

/-- Two type lists denote the same type set. -/
def typeSetEqb (a b : List Nat) : Bool :=
  a.all (fun t => b.contains t) && b.all (fun t => a.contains t)

/-- Modelled from the spec: find the archetype with the given type set or
append a fresh empty one. -/
def findOrCreate (archs : List Archetype) (tys : List Nat) : List Archetype × Nat :=
  match archs.findIdx? (fun ar => typeSetEqb ar.types tys) with
  | some i => (archs, i)
  | none => (archs ++ [⟨tys, []⟩], archs.length)

/-- Modelled from the spec: `Edges::insert` destination: source's type set
plus `t`. -/
def edgesInsert (archs : List Archetype) (src : Nat) (t : Nat) :
    List Archetype × Nat :=
  findOrCreate archs ((archAt archs src).types ++ [t])

/-- Modelled from the spec: `Edges::remove` destination: source's type set
minus `t`. -/
def edgesRemove (archs : List Archetype) (src : Nat) (t : Nat) :
    List Archetype × Nat :=
  findOrCreate archs ((archAt archs src).types.filter (fun x => x ≠ t))

/-- Modelled from the spec: `Edges::insert_bundle` destination: source's
type set united with the bundle's types. -/
def edgesInsertBundle (archs : List Archetype) (src : Nat) (tys : List Nat) :
    List Archetype × Nat :=
  let srcTys := (archAt archs src).types
  findOrCreate archs (srcTys ++ tys.filter (fun t => ¬ srcTys.contains t))

/-- Modelled from the spec: `Edges::remove_bundle` destination: source's
type set minus the bundle's types. -/
def edgesRemoveBundle (archs : List Archetype) (src : Nat) (tys : List Nat) :
    List Archetype × Nat :=
  findOrCreate archs ((archAt archs src).types.filter (fun x => ¬ tys.contains x))

/-! ## World (src/world/mod.rs)

The `World` operations below mirror src/world/mod.rs statement by
statement; the callees (`Entities`, `Archetype`, `Edges`) are the
spec-modelled functions above.  Component hooks run through the action
encoder and never touch the global epoch; they are treated separately in
the relation section.  A bundle is a list of `(type id, value)` pairs. -/

/-- Error `NoSuchEntity` (src/world/mod.rs). -/
inductive NoSuchEntity where
  | mk
deriving DecidableEq

/-- Error `EntityError` (src/world/mod.rs). -/
inductive EntityError where
  | NoSuchEntity
  | MissingComponents
deriving DecidableEq

/-- Error `QueryOneError` (src/world/mod.rs). -/
inductive QueryOneError where
  | NoSuchEntity
  | NotSatisfied
deriving DecidableEq

/-- The world: global epoch counter, entity directory, archetype list. -/
structure World where
  epoch : Nat
  entities : Entities
  archetypes : List Archetype
deriving DecidableEq

/-- `DynamicBundle::valid()`: no duplicate component types in the bundle. -/
def bundleValid (bundle : List (Nat × Nat)) : Bool :=
  decide (bundle.map Prod.fst).Nodup

/-- `World::new()`: no entities, only the distinguished null archetype. -/
def World.new : World := ⟨0, ⟨[]⟩, [⟨[], []⟩]⟩

/-- `World::spawn_impl`: panics (`none`) on an invalid bundle; otherwise
allocates an id, finds/creates the bundle's archetype, bumps the epoch
once, appends the row, and records the location. -/
def World.spawn (w : World) (bundle : List (Nat × Nat)) :
    Option (World × EntityId) :=
  if ¬ bundleValid bundle then none
  else
    let (ent1, e) := entSpawn w.entities
    let (archs1, ai) := findOrCreate w.archetypes (bundle.map Prod.fst)
    let epoch1 := w.epoch + 1
    let a := archAt archs1 ai
    let row : Row := ⟨e, bundle⟩
    let archs2 := archs1.set ai { a with rows := a.rows ++ [row] }
    let ent2 := entSetLocation ent1 e.idx ai a.rows.length
    some (⟨epoch1, ent2, archs2⟩, e)

/-- `World::despawn` (via `despawn_with_encoder`): resolve and free the
slot, swap-remove the row, fix up the moved entity's location.  The global
epoch is not touched by this operation. -/
def World.despawn (w : World) (e : EntityId) :
    World × Except NoSuchEntity Unit :=
  match entDespawn w.entities e with
  | none => (w, .error .mk)
  | some (ent1, a, r) =>
    let arch := archAt w.archetypes a
    let (rows1, moved) := rowsSwapRemove arch.rows r
    let archs1 := w.archetypes.set a { arch with rows := rows1 }
    let ent2 :=
      match moved with
      | some mid => entSetLocation ent1 mid.idx a r
      | none => ent1
    ({ w with entities := ent2, archetypes := archs1 }, .ok ())

/-- `World::insert` (via `insert_with_encoder_impl`): on a dead entity
return `NoSuchEntity` before any change; otherwise bump the epoch, then
either overwrite in place (type already present) or migrate the row to the
archetype with the type added. -/
def World.insert (w : World) (e : EntityId) (t v : Nat) :
    World × Except NoSuchEntity Unit :=
  match entGet w.entities e with
  | none => (w, .error .mk)
  | some (src, idx) =>
    let w1 : World := { w with epoch := w.epoch + 1 }
    let srcArch := archAt w1.archetypes src
    if srcArch.contains_id t then
      let archs1 := w1.archetypes.set src
        { srcArch with rows :=
            match srcArch.rows[idx]? with
            | some row => srcArch.rows.set idx (row.setComp t v)
            | none => srcArch.rows }
      ({ w1 with archetypes := archs1 }, .ok ())
    else
      let (archs1, dst) := edgesInsert w1.archetypes src t
      let srcA := archAt archs1 src
      let dstA := archAt archs1 dst
      match srcA.rows[idx]? with
      | none => ({ w1 with archetypes := archs1 }, .ok ())
      | some row =>
        let (srcRows, moved) := rowsSwapRemove srcA.rows idx
        let dstIdx := dstA.rows.length
        let archs2 := (archs1.set src { srcA with rows := srcRows }).set dst
          { dstA with rows := dstA.rows ++ [row.addComp t v] }
        let ent1 := entSetLocation w1.entities e.idx dst dstIdx
        let ent2 :=
          match moved with
          | some mid => entSetLocation ent1 mid.idx src idx
          | none => ent1
        ({ w1 with archetypes := archs2, entities := ent2 }, .ok ())

/-- `World::remove`: `NoSuchEntity` before the bump on a dead entity; the
epoch is bumped before the missing-component check, so
`MissingComponents` is returned with the epoch already advanced.  On
success the row migrates to the archetype without `t` and the removed
value is returned. -/
def World.remove (w : World) (e : EntityId) (t : Nat) :
    World × Except EntityError (Option Nat) :=
  match entGet w.entities e with
  | none => (w, .error .NoSuchEntity)
  | some (src, idx) =>
    let w1 : World := { w with epoch := w.epoch + 1 }
    let srcArch := archAt w1.archetypes src
    if ¬ srcArch.contains_id t then (w1, .error .MissingComponents)
    else
      let (archs1, dst) := edgesRemove w1.archetypes src t
      let srcA := archAt archs1 src
      let dstA := archAt archs1 dst
      match srcA.rows[idx]? with
      | none => ({ w1 with archetypes := archs1 }, .ok none)
      | some row =>
        let (srcRows, moved) := rowsSwapRemove srcA.rows idx
        let dstIdx := dstA.rows.length
        let archs2 := (archs1.set src { srcA with rows := srcRows }).set dst
          { dstA with rows := dstA.rows ++ [row.keepTypes dstA.types] }
        let ent1 := entSetLocation w1.entities e.idx dst dstIdx
        let ent2 :=
          match moved with
          | some mid => entSetLocation ent1 mid.idx src idx
          | none => ent1
        ({ w1 with archetypes := archs2, entities := ent2 }, .ok (row.getComp t))

/-- `World::drop_erased` (via `drop_erased_with_encoder`): same control
flow as `remove` but the value is dropped through hooks instead of being
returned. -/
def World.dropErased (w : World) (e : EntityId) (t : Nat) :
    World × Except EntityError Unit :=
  let (w', r) := World.remove w e t
  (w', r.map (fun _ => ()))

/-- `World::insert_bundle` (via `insert_bundle_with_encoder_impl`): panic
(`none`) on an invalid bundle; `NoSuchEntity` on a dead entity (before the
bump); an empty bundle returns `Ok` without bumping; otherwise bump once,
then write in place when no new types are added, or migrate. -/
def World.insertBundle (w : World) (e : EntityId) (bundle : List (Nat × Nat)) :
    Option (World × Except NoSuchEntity Unit) :=
  if ¬ bundleValid bundle then none
  else some <|
    match entGet w.entities e with
    | none => (w, .error .mk)
    | some (src, idx) =>
      if bundle.isEmpty then (w, .ok ())
      else
        let w1 : World := { w with epoch := w.epoch + 1 }
        let (archs1, dst) := edgesInsertBundle w1.archetypes src (bundle.map Prod.fst)
        if dst = src then
          let srcA := archAt archs1 src
          let archs2 := archs1.set src
            { srcA with rows :=
                match srcA.rows[idx]? with
                | some row => srcA.rows.set idx (bundle.foldl (fun r p => r.setOrAdd p.1 p.2) row)
                | none => srcA.rows }
          ({ w1 with archetypes := archs2 }, .ok ())
        else
          let srcA := archAt archs1 src
          let dstA := archAt archs1 dst
          match srcA.rows[idx]? with
          | none => ({ w1 with archetypes := archs1 }, .ok ())
          | some row =>
            let (srcRows, moved) := rowsSwapRemove srcA.rows idx
            let dstIdx := dstA.rows.length
            let row1 := bundle.foldl (fun r p => r.setOrAdd p.1 p.2) row
            let archs2 := (archs1.set src { srcA with rows := srcRows }).set dst
              { dstA with rows := dstA.rows ++ [row1] }
            let ent1 := entSetLocation w1.entities e.idx dst dstIdx
            let ent2 :=
              match moved with
              | some mid => entSetLocation ent1 mid.idx src idx
              | none => ent1
            ({ w1 with archetypes := archs2, entities := ent2 }, .ok ())

/-- `World::drop_bundle` (via `drop_bundle_with_encoder`): panic (`none`)
on a duplicate-type bundle; `NoSuchEntity` on a dead entity; `Ok` without
a bump when the entity has none of the bundle's types; otherwise bump once
and migrate to the archetype without those types. -/
def World.dropBundle (w : World) (e : EntityId) (tys : List Nat) :
    Option (World × Except NoSuchEntity Unit) :=
  if ¬ decide tys.Nodup then none
  else some <|
    match entGet w.entities e with
    | none => (w, .error .mk)
    | some (src, idx) =>
      let srcArch := archAt w.archetypes src
      if tys.all (fun t => ¬ srcArch.contains_id t) then (w, .ok ())
      else
        let w1 : World := { w with epoch := w.epoch + 1 }
        let (archs1, dst) := edgesRemoveBundle w1.archetypes src tys
        let srcA := archAt archs1 src
        let dstA := archAt archs1 dst
        match srcA.rows[idx]? with
        | none => ({ w1 with archetypes := archs1 }, .ok ())
        | some row =>
          let (srcRows, moved) := rowsSwapRemove srcA.rows idx
          let dstIdx := dstA.rows.length
          let archs2 := (archs1.set src { srcA with rows := srcRows }).set dst
            { dstA with rows := dstA.rows ++ [row.keepTypes dstA.types] }
          let ent1 := entSetLocation w1.entities e.idx dst dstIdx
          let ent2 :=
            match moved with
            | some mid => entSetLocation ent1 mid.idx src idx
            | none => ent1
          ({ w1 with archetypes := archs2, entities := ent2 }, .ok ())

/-- `World::has_component`: `NoSuchEntity` on a dead entity, otherwise
whether the entity's archetype contains the type. -/
def World.has_component (w : World) (e : EntityId) (t : Nat) :
    Except NoSuchEntity Bool :=
  match entGet w.entities e with
  | none => .error .mk
  | some (a, _) => .ok ((archAt w.archetypes a).contains_id t)

/-- Abstract per-archetype query behaviour used by `query_one`: the
`skip_archetype`, `Fetch::skip_chunk` and `Fetch::skip_item` checks. -/
structure QuerySpec where
  skipArchetype : Archetype → Bool
  skipChunk : Nat → Bool
  skipItem : Nat → Bool

/-- `World::query_one_state` (immutable; no epoch bump): `NoSuchEntity` on
a dead entity, `NotSatisfied` when the archetype, the chunk or the row is
skipped by the query. -/
def World.query_one (w : World) (q : QuerySpec) (e : EntityId) :
    Except QueryOneError Unit :=
  match entGet w.entities e with
  | none => .error .NoSuchEntity
  | some (a, idx) =>
    let arch := archAt w.archetypes a
    if q.skipArchetype arch then .error .NotSatisfied
    else if q.skipChunk (chunk_idx idx) then .error .NotSatisfied
    else if q.skipItem idx then .error .NotSatisfied
    else .ok ()

/-- `World::query_one_state_mut`: `self.epoch += 1` runs before the entity
is resolved, so the epoch advances on every call, including the
`NoSuchEntity` and `NotSatisfied` returns. -/
def World.query_one_mut (w : World) (q : QuerySpec) (e : EntityId) :
    World × Except QueryOneError Unit :=
  let w1 : World := { w with epoch := w.epoch + 1 }
  (w1, World.query_one w1 q e)

/-- `World::add_relation_with_encoder`, validation prefix: both entity ids
are resolved (each failing with `NoSuchEntity`) before the epoch bump and
the two `insert_component` calls (whose component bookkeeping lives in the
relation model). -/
def World.add_relation_check (w : World) (e target : EntityId) :
    Except NoSuchEntity Unit :=
  match entGet w.entities e with
  | none => .error .mk
  | some _ =>
    match entGet w.entities target with
    | none => .error .mk
    | some _ => .ok ()

/-- `World::drop_relation_with_encoder`, validation prefix: identical
two-id validation before any work. -/
def World.drop_relation_check (w : World) (e target : EntityId) :
    Except NoSuchEntity Unit :=
  match entGet w.entities e with
  | none => .error .mk
  | some _ =>
    match entGet w.entities target with
    | none => .error .mk
    | some _ => .ok ()

/-- The slot referenced by `e` is free, out of range, or carries a
different generation: the "dead handle" condition of the error table. -/
def slotDead (ent : Entities) (e : EntityId) : Bool :=
  match ent.slots[e.idx]? with
  | none => true
  | some s => s.loc.isNone || decide (s.gen ≠ e.gen)

theorem entGet_none_of_slotDead {ent : Entities} {e : EntityId}
    (h : slotDead ent e = true) : entGet ent e = none := by
  unfold slotDead at h
  unfold entGet
  cases hs : ent.slots[e.idx]? with
  | none => rfl
  | some s =>
    rw [hs] at h
    simp only [Bool.or_eq_true, Option.isNone_iff_eq_none, decide_eq_true_eq] at h
    by_cases hg : s.gen = e.gen
    · rcases h with hl | hgne
      · simp [hg, hl]
      · exact absurd hg hgne
    · simp [hg]

/-- C5: every entity-scoped operation called on an id whose slot is free,
out of range, or generation-mismatched returns its `NoSuchEntity` error
value (never a panic), leaving the world untouched except for the epoch
bump that `query_one_mut` performs up front. -/
theorem dead_entity_ops_no_such_entity (w : World) (e a : EntityId)
    (t v : Nat) (bundle : List (Nat × Nat)) (tys : List Nat) (q : QuerySpec)
    (hdead : slotDead w.entities e = true) :
    entGet w.entities e = none ∧
    World.insert w e t v = (w, .error .mk) ∧
    World.remove w e t = (w, .error .NoSuchEntity) ∧
    World.dropErased w e t = (w, .error .NoSuchEntity) ∧
    World.despawn w e = (w, .error .mk) ∧
    (bundleValid bundle = true → World.insertBundle w e bundle = some (w, .error .mk)) ∧
    (tys.Nodup → World.dropBundle w e tys = some (w, .error .mk)) ∧
    World.has_component w e t = .error .mk ∧
    World.query_one w q e = .error .NoSuchEntity ∧
    (World.query_one_mut w q e).2 = .error .NoSuchEntity ∧
    World.add_relation_check w e a = .error .mk ∧
    World.add_relation_check w a e ≠ .ok () ∧
    World.drop_relation_check w e a = .error .mk ∧
    World.drop_relation_check w a e ≠ .ok () := by
  have hget : entGet w.entities e = none := entGet_none_of_slotDead hdead
  refine ⟨hget, ?_, ?_, ?_, ?_, ?_, ?_, ?_, ?_, ?_, ?_, ?_, ?_, ?_⟩
  · simp [World.insert, hget]
  · simp [World.remove, hget]
  · simp [World.dropErased, World.remove, hget, Except.map]
  · simp [World.despawn, entDespawn, hget]
  · intro hb
    simp [World.insertBundle, hb, hget]
  · intro hn
    simp [World.dropBundle, hn, hget]
  · simp [World.has_component, hget]
  · simp [World.query_one, hget]
  · simp [World.query_one_mut, World.query_one, hget]
  · simp [World.add_relation_check, hget]
  · intro hcon
    unfold World.add_relation_check at hcon
    cases hga : entGet w.entities a with
    | none => rw [hga] at hcon; exact absurd hcon (by simp)
    | some p => rw [hga, hget] at hcon; exact absurd hcon (by simp)
  · simp [World.drop_relation_check, hget]
  · intro hcon
    unfold World.drop_relation_check at hcon
    cases hga : entGet w.entities a with
    | none => rw [hga] at hcon; exact absurd hcon (by simp)
    | some p => rw [hga, hget] at hcon; exact absurd hcon (by simp)

/-- C2 (amended): epoch discipline of the mutating `World` operations.
`spawn` bumps exactly once per call; `insert`, `remove` and `drop` bump
exactly once whenever the entity is alive (and not at all on a dead
entity, per the theorem on dead handles); `insert_bundle` bumps exactly
once when the entity is alive and the bundle is non-empty, and not at all
otherwise; `drop_bundle` bumps exactly once when the entity is alive and
carries at least one of the bundle's types, and not at all otherwise;
`despawn` never touches the global epoch. -/
theorem world_mutating_ops_epoch_bumps (w : World) (e : EntityId) (t v : Nat)
    (bundle : List (Nat × Nat)) (tys : List Nat) :
    (∀ w' eid, World.spawn w bundle = some (w', eid) → w'.epoch = w.epoch + 1) ∧
    (entGet w.entities e ≠ none → ((World.insert w e t v).1).epoch = w.epoch + 1) ∧
    (entGet w.entities e ≠ none → ((World.remove w e t).1).epoch = w.epoch + 1) ∧
    (entGet w.entities e ≠ none → ((World.dropErased w e t).1).epoch = w.epoch + 1) ∧
    (∀ w' r, entGet w.entities e ≠ none → bundle ≠ [] →
       World.insertBundle w e bundle = some (w', r) → w'.epoch = w.epoch + 1) ∧
    (∀ w' r, bundle = [] → World.insertBundle w e bundle = some (w', r) →
       w'.epoch = w.epoch) ∧
    (∀ w' r src idx, entGet w.entities e = some (src, idx) →
       World.dropBundle w e tys = some (w', r) →
       w'.epoch = (if tys.all (fun x => ¬ (archAt w.archetypes src).contains_id x)
         then w.epoch else w.epoch + 1)) ∧
    ((World.despawn w e).1).epoch = w.epoch := by
  refine ⟨?_, ?_, ?_, ?_, ?_, ?_, ?_, ?_⟩
  · intro w' eid h
    cases hbv : bundleValid bundle with
    | false => simp [World.spawn, hbv] at h
    | true =>
      simp only [World.spawn, hbv, Bool.true_eq_false, not_false_eq_true,
        not_true_eq_false, if_false, ite_false, Option.some.injEq] at h
      rw [Prod.mk.injEq] at h
      rw [← h.1]
  · intro hne
    rcases hget : entGet w.entities e with _ | ⟨src, idx⟩
    · exact absurd hget hne
    · simp only [World.insert, hget]
      split
      · rfl
      · split <;> rfl
  · intro hne
    rcases hget : entGet w.entities e with _ | ⟨src, idx⟩
    · exact absurd hget hne
    · simp only [World.remove, hget]
      split
      · rfl
      · split <;> rfl
  · intro hne
    rcases hget : entGet w.entities e with _ | ⟨src, idx⟩
    · exact absurd hget hne
    · simp only [World.dropErased, World.remove, hget]
      split
      · rfl
      · split <;> rfl
  · intro w' r hne hnil h
    cases hbv : bundleValid bundle with
    | false => simp [World.insertBundle, hbv] at h
    | true =>
      rcases hget : entGet w.entities e with _ | ⟨src, idx⟩
      · exact absurd hget hne
      · have hemp : bundle.isEmpty = false := by
          cases bundle
          · exact absurd rfl hnil
          · rfl
        simp only [World.insertBundle, hbv, Bool.true_eq_false, Bool.false_eq_true,
          not_false_eq_true, not_true_eq_false, if_false, ite_false, hget, hemp] at h
        split at h
        · rw [Option.some.injEq, Prod.mk.injEq] at h
          rw [← h.1]
        · split at h <;>
            (rw [Option.some.injEq, Prod.mk.injEq] at h
             rw [← h.1])
  · intro w' r hnil h
    subst hnil
    rcases hget : entGet w.entities e with _ | ⟨src, idx⟩
    · simp only [World.insertBundle, bundleValid, List.map_nil, List.nodup_nil,
        decide_True, Bool.true_eq_false, not_false_eq_true, not_true_eq_false,
        if_false, ite_false, hget, Option.some.injEq] at h
      rw [Prod.mk.injEq] at h
      rw [← h.1]
    · simp only [World.insertBundle, bundleValid, List.map_nil, List.nodup_nil,
        decide_True, Bool.true_eq_false, not_false_eq_true, not_true_eq_false,
        if_false, ite_false, hget, List.isEmpty_nil, if_true, ite_true,
        Option.some.injEq] at h
      rw [Prod.mk.injEq] at h
      rw [← h.1]
  · intro w' r src idx hget h
    cases hnd : decide tys.Nodup with
    | false => simp [World.dropBundle, hnd] at h
    | true =>
      simp only [World.dropBundle, hnd, Bool.true_eq_false, not_false_eq_true,
        not_true_eq_false, if_false, ite_false, hget] at h
      by_cases hall : tys.all (fun x => ¬ (archAt w.archetypes src).contains_id x) = true
      · rw [if_pos hall]
        rw [hall] at h
        simp only [if_true, ite_true] at h
        rw [Option.some.injEq, Prod.mk.injEq] at h
        rw [← h.1]
      · have hall' : tys.all (fun x => ¬ (archAt w.archetypes src).contains_id x) = false := by
          cases hv : tys.all (fun x => ¬ (archAt w.archetypes src).contains_id x)
          · rfl
          · exact absurd hv hall
        rw [hall']
        rw [hall'] at h
        simp only [Bool.false_eq_true, if_false, ite_false] at h ⊢
        split at h <;>
          (rw [Option.some.injEq, Prod.mk.injEq] at h
           rw [← h.1])
  · unfold World.despawn
    cases hd : entDespawn w.entities e with
    | none => rfl
    | some p => rfl

deriving instance DecidableEq for Except

/-- The world obtained by spawning one entity with a single component of
type 7 and value 42 into a fresh world, together with that entity's id. -/
def cexSpawn : World × EntityId :=
  (World.spawn World.new [(7, 42)]).getD (World.new, ⟨0, 0⟩)

/-- Concrete one-entity world used by counterexamples and witnesses. -/
def cexWorld : World := cexSpawn.1

/-- The live entity of `cexWorld`. -/
def cexEnt : EntityId := cexSpawn.2

/-- Counterexample to C2 as stated: `despawn` on a live entity succeeds
but does not bump the global epoch (`despawn_with_encoder` contains no
`self.epoch += 1`). -/
theorem despawn_epoch_unchanged_cex :
    (cexWorld.despawn cexEnt).2 = .ok () ∧
    ((cexWorld.despawn cexEnt).1).epoch = cexWorld.epoch ∧
    ¬ ((cexWorld.despawn cexEnt).1).epoch = cexWorld.epoch + 1 := by
  refine ⟨by decide, by decide, by decide⟩

/-- Witness for the amended C2 theorem at a concrete world: the live
entity makes `insert` bump the epoch by exactly one. -/
theorem world_mutating_ops_epoch_bumps_witness :
    entGet cexWorld.entities cexEnt ≠ none ∧
    ((cexWorld.insert cexEnt 8 1).1).epoch = cexWorld.epoch + 1 :=
  ⟨by decide,
   (world_mutating_ops_epoch_bumps cexWorld cexEnt 8 1 [] []).2.1 (by decide)⟩

/-- C10: `query_one_state_mut` bumps the epoch before validating the
entity, so the epoch advances even on `Err(NoSuchEntity)` /
`Err(NotSatisfied)`; `remove` bumps before the missing-component check,
so `Err(MissingComponents)` is returned with the epoch advanced, while
`remove` on a dead entity returns before the bump and leaves the epoch
unchanged. -/
theorem query_one_mut_remove_epoch_effects (w : World) (q : QuerySpec)
    (e : EntityId) (t : Nat) :
    ((World.query_one_mut w q e).1).epoch = w.epoch + 1 ∧
    (entGet w.entities e = none →
       (World.query_one_mut w q e).2 = .error .NoSuchEntity ∧
       World.remove w e t = (w, .error .NoSuchEntity)) ∧
    (∀ src idx, entGet w.entities e = some (src, idx) →
       (archAt w.archetypes src).contains_id t = false →
       World.remove w e t = ({ w with epoch := w.epoch + 1 },
         .error .MissingComponents)) := by
  refine ⟨rfl, ?_, ?_⟩
  · intro hget
    constructor
    · simp [World.query_one_mut, World.query_one, hget]
    · simp [World.remove, hget]
  · intro src idx hget hmiss
    simp [World.remove, hget, hmiss]

/-- Query rejecting everything, for concrete instantiations. -/
def rejectAllQuery : QuerySpec := ⟨fun _ => true, fun _ => true, fun _ => true⟩

/-- Witness for C10: in the concrete one-entity world, a failing mutable
single-entity query still advances the epoch, and removing a component
the entity lacks returns `MissingComponents` with the epoch advanced. -/
theorem query_one_mut_remove_epoch_effects_witness :
    ((World.query_one_mut cexWorld rejectAllQuery cexEnt).1).epoch
      = cexWorld.epoch + 1 ∧
    World.remove cexWorld cexEnt 8
      = ({ cexWorld with epoch := cexWorld.epoch + 1 },
         .error .MissingComponents) :=
  ⟨(query_one_mut_remove_epoch_effects cexWorld rejectAllQuery cexEnt 8).1,
   (query_one_mut_remove_epoch_effects cexWorld rejectAllQuery cexEnt 8).2.2
     1 0 (by decide) (by decide)⟩

/-- Witness for C5: a generation-mismatched handle on a live slot makes
every entity-scoped operation return `NoSuchEntity`. -/
theorem dead_entity_ops_no_such_entity_witness :
    entGet cexWorld.entities ⟨0, 99⟩ = none ∧
    World.despawn cexWorld ⟨0, 99⟩ = (cexWorld, .error .mk) :=
  ⟨(dead_entity_ops_no_such_entity cexWorld ⟨0, 99⟩ cexEnt 8 1 [] []
      rejectAllQuery (by decide)).1,
   (dead_entity_ops_no_such_entity cexWorld ⟨0, 99⟩ cexEnt 8 1 [] []
      rejectAllQuery (by decide)).2.2.2.2.1⟩

/-- C8: `ActionBuffer::execute` drains the buffer completely and in FIFO
order.  `execReturns` is `true` exactly when at least one action runs
(the buffer was non-empty); the first `|q|` executed actions are the
initially queued ones in queue order (actions enqueued during execution
go to the back); and the full trace is a permutation of every action
reachable from the initial queue — each initially recorded action and each
action enqueued during execution runs exactly once before `execute`
returns, which it does only once the queue is structurally empty. -/
theorem action_buffer_execute_drains (q : List Action) :
    (execReturns q = true ↔ q ≠ []) ∧
    (execTrace q).take q.length = q.map Action.ident ∧
    (execTrace q).Perm (allIds q) := by
  refine ⟨?_, execTrace_fifo_prefix q, execTrace_perm q⟩
  cases q <;> simp [execReturns]

/-- C9 (amended): the reservation made by `spawn_reserve` is
`max(lower, min(upper, MAX_SPAWN_RESERVE))`; it is bounded by
`min(upper, MAX_SPAWN_RESERVE)` exactly when the hint's lower bound does
not itself exceed that quantity (the `Iterator::size_hint` contract gives
`lower ≤ upper`). -/
theorem spawn_reserve_at_most (lower u : Nat)
    (hl : lower ≤ u) (hm : lower ≤ MAX_SPAWN_RESERVE) :
    spawn_reserve_additional lower (some u) ≤ min u MAX_SPAWN_RESERVE := by
  simp only [spawn_reserve_additional, MAX_SPAWN_RESERVE] at *
  omega

/-- Witness for the amended C9 theorem. -/
theorem spawn_reserve_at_most_witness :
    3 ≤ 5 ∧ spawn_reserve_additional 3 (some 5) ≤ min 5 MAX_SPAWN_RESERVE :=
  ⟨by decide, spawn_reserve_at_most 3 5 (by decide) (by decide)⟩

/-- Counterexample to C9 as stated: an exact-size hint of 2000 items
(`lower = upper = 2000`) makes `spawn_reserve` reserve 2000 rows, which
exceeds `min(upper, MAX_SPAWN_RESERVE) = 1024` — the comment in
`spawn_reserve` chooses to reserve at least `lower` because a `fold`
consumes the iterator in full. -/
theorem spawn_reserve_exceeds_cex :
    spawn_reserve_additional 2000 (some 2000) = 2000 ∧
    ¬ spawn_reserve_additional 2000 (some 2000) ≤ min 2000 MAX_SPAWN_RESERVE := by
  refine ⟨by decide, by decide⟩

/-! ## Structural-insert correctness (C4 support) -/

theorem nat_contains_iff {l : List Nat} {x : Nat} : l.contains x = true ↔ x ∈ l := by
  simp

theorem typeSetEqb_iff {a b : List Nat} :
    typeSetEqb a b = true ↔ ∀ x, (x ∈ a ↔ x ∈ b) := by
  simp only [typeSetEqb, Bool.and_eq_true, List.all_eq_true]
  constructor
  · rintro ⟨h1, h2⟩ x
    constructor
    · intro hx
      exact nat_contains_iff.mp (h1 x hx)
    · intro hx
      exact nat_contains_iff.mp (h2 x hx)
  · intro h
    constructor
    · intro x hx
      exact nat_contains_iff.mpr ((h x).mp hx)
    · intro x hx
      exact nat_contains_iff.mpr ((h x).mpr hx)

theorem typeSetEqb_refl (a : List Nat) : typeSetEqb a a = true :=
  typeSetEqb_iff.mpr (fun _ => Iff.rfl)

theorem findOrCreate_lt (archs : List Archetype) (tys : List Nat) :
    (findOrCreate archs tys).2 < (findOrCreate archs tys).1.length := by
  unfold findOrCreate
  cases hf : archs.findIdx? (fun ar => typeSetEqb ar.types tys) with
  | none => simp
  | some i =>
    rw [List.findIdx?_eq_some_iff_getElem] at hf
    obtain ⟨hlt, _, _⟩ := hf
    simpa using hlt

theorem findOrCreate_types (archs : List Archetype) (tys : List Nat) :
    typeSetEqb (archAt (findOrCreate archs tys).1 (findOrCreate archs tys).2).types
      tys = true := by
  unfold findOrCreate
  cases hf : archs.findIdx? (fun ar => typeSetEqb ar.types tys) with
  | none =>
    simp only [archAt, List.getElem?_concat_length, Option.getD_some]
    exact typeSetEqb_refl tys
  | some i =>
    rw [List.findIdx?_eq_some_iff_getElem] at hf
    obtain ⟨hlt, hp, _⟩ := hf
    simp only [archAt, List.getElem?_eq_getElem hlt, Option.getD_some]
    exact hp

theorem findOrCreate_preserves (archs : List Archetype) (tys : List Nat)
    {k : Nat} (hk : k < archs.length) :
    ((findOrCreate archs tys).1)[k]? = archs[k]? := by
  unfold findOrCreate
  cases hf : archs.findIdx? (fun ar => typeSetEqb ar.types tys) with
  | none => simp [List.getElem?_append_left hk]
  | some i => rfl

theorem entGet_idx_lt {ent : Entities} {e : EntityId} {p : Nat × Nat}
    (h : entGet ent e = some p) : e.idx < ent.slots.length := by
  unfold entGet at h
  cases hs : ent.slots[e.idx]? with
  | none => rw [hs] at h; exact absurd h (by simp)
  | some s => exact (List.getElem?_eq_some_iff.mp hs).1

theorem entSetLocation_get_self {ent : Entities} {e : EntityId} {p : Nat × Nat}
    (h : entGet ent e = some p) (a r : Nat) :
    entGet (entSetLocation ent e.idx a r) e = some (a, r) := by
  unfold entGet at h
  cases hs : ent.slots[e.idx]? with
  | none => rw [hs] at h; exact absurd h (by simp)
  | some s =>
    rw [hs] at h
    by_cases hg : s.gen = e.gen
    · have hlen : e.idx < ent.slots.length := (List.getElem?_eq_some_iff.mp hs).1
      unfold entGet entSetLocation
      simp only [hs, List.getElem?_set_self hlen, hg, if_true, ite_true]
    · simp [hg] at h

theorem entSetLocation_get_other {ent : Entities} {e : EntityId} {i a r : Nat}
    (h : i ≠ e.idx) :
    entGet (entSetLocation ent i a r) e = entGet ent e := by
  unfold entGet entSetLocation
  simp only [List.getElem?_set_ne h]

theorem archAt_set_self {archs : List Archetype} {j : Nat} {y : Archetype}
    (h : j < archs.length) : archAt (archs.set j y) j = y := by
  simp [archAt, List.getElem?_set_self h]

theorem archAt_set_other {archs : List Archetype} {i j : Nat} {y : Archetype}
    (h : i ≠ j) : archAt (archs.set i y) j = archAt archs j := by
  simp [archAt, List.getElem?_set_ne h]

theorem getComp_none_of_no_key {row : Row} {t : Nat}
    (h : ∀ p ∈ row.comps, ¬ p.1 = t) : row.getComp t = none := by
  unfold Row.getComp
  cases hf : row.comps.find? (fun p => p.1 = t) with
  | none => rfl
  | some q =>
    have hq := List.find?_some hf
    have hmem := List.mem_of_find?_eq_some hf
    simp only [decide_eq_true_eq] at hq
    exact absurd hq (h q hmem)

theorem getComp_addComp_same {row : Row} {t v : Nat}
    (h : row.getComp t = none) : (row.addComp t v).getComp t = some v := by
  unfold Row.getComp Row.addComp at *
  simp only [List.find?_append]
  cases hf : row.comps.find? (fun p => p.1 = t) with
  | none => simp [List.find?]
  | some q => rw [hf] at h; exact absurd h (by simp)

theorem getComp_addComp_other {row : Row} {t v u : Nat} (h : ¬ u = t) :
    (row.addComp t v).getComp u = row.getComp u := by
  unfold Row.getComp Row.addComp
  simp only [List.find?_append]
  cases hf : row.comps.find? (fun p => decide (p.1 = u)) with
  | none =>
    have h' : ¬ t = u := fun he => h he.symm
    simp [List.find?, hf, h']
  | some q => simp [hf]

/-- C4: when `insert(E, T)` succeeds and `T` was new to `E`, `E` ends up in
an archetype whose type-set is the old set united with `{T}`, the new
component holds the inserted value, and every other component of `E`'s row
is preserved bitwise.  The hypotheses are the directory/archetype
consistency invariants: `E`'s location points into bounds at `E`'s row,
the row's columns are the archetype's types, and no other row of the
source archetype belongs to `E`'s slot. -/
theorem insert_new_component_migrates (w : World) (e : EntityId) (t v : Nat)
    (src idx : Nat) (row : Row)
    (hget : entGet w.entities e = some (src, idx))
    (hsrc : src < w.archetypes.length)
    (hrow : (archAt w.archetypes src).rows[idx]? = some row)
    (ht : (archAt w.archetypes src).contains_id t = false)
    (hkeys : ∀ p ∈ row.comps, p.1 ∈ (archAt w.archetypes src).types)
    (hdistinct : ∀ j r', (archAt w.archetypes src).rows[j]? = some r' →
       j ≠ idx → r'.id.idx ≠ e.idx) :
    (World.insert w e t v).2 = .ok () ∧
    ∃ dst dstIdx row',
      entGet ((World.insert w e t v).1).entities e = some (dst, dstIdx) ∧
      (∀ x, x ∈ (archAt ((World.insert w e t v).1).archetypes dst).types ↔
        (x ∈ (archAt w.archetypes src).types ∨ x = t)) ∧
      (archAt ((World.insert w e t v).1).archetypes dst).rows[dstIdx]? = some row' ∧
      row'.getComp t = some v ∧
      (∀ u, ¬ u = t → row'.getComp u = row.getComp u) := by
  have htnotin : t ∉ (archAt w.archetypes src).types := by
    intro hmem
    have : (archAt w.archetypes src).contains_id t = true := by
      simp only [Archetype.contains_id]
      exact nat_contains_iff.mpr hmem
    rw [ht] at this
    exact absurd this (by simp)
  rcases hE : edgesInsert w.archetypes src t with ⟨archs1, dst⟩
  have hE' : findOrCreate w.archetypes ((archAt w.archetypes src).types ++ [t])
      = (archs1, dst) := hE
  have hdstlt : dst < archs1.length := by
    have h1 := findOrCreate_lt w.archetypes ((archAt w.archetypes src).types ++ [t])
    rw [hE'] at h1
    exact h1
  have hdsttypes : typeSetEqb (archAt archs1 dst).types
      ((archAt w.archetypes src).types ++ [t]) = true := by
    have h1 := findOrCreate_types w.archetypes ((archAt w.archetypes src).types ++ [t])
    rw [hE'] at h1
    exact h1
  have hpres : ∀ k, k < w.archetypes.length → archs1[k]? = w.archetypes[k]? := by
    intro k hk
    have h1 := findOrCreate_preserves w.archetypes
      ((archAt w.archetypes src).types ++ [t]) hk
    rw [hE'] at h1
    exact h1
  have hsrckeep : archAt archs1 src = archAt w.archetypes src := by
    simp [archAt, hpres src hsrc]
  have hdstne : ¬ dst = src := by
    intro hds
    subst hds
    have hmem := (typeSetEqb_iff.mp hdsttypes t).mpr (by simp)
    rw [hsrckeep] at hmem
    exact htnotin hmem
  have hidxlt : idx < (archAt w.archetypes src).rows.length :=
    (List.getElem?_eq_some_iff.mp hrow).1
  have hgetnone : row.getComp t = none := by
    refine getComp_none_of_no_key ?_
    intro p hp heq
    exact htnotin (heq ▸ hkeys p hp)
  have htypesiff : ∀ x, x ∈ (archAt archs1 dst).types ↔
      (x ∈ (archAt w.archetypes src).types ∨ x = t) := by
    intro x
    have h1 := typeSetEqb_iff.mp hdsttypes x
    simpa using h1
  simp only [World.insert, hget, ht, Bool.false_eq_true, if_false, ite_false, hE,
    hsrckeep, hrow]
  refine ⟨trivial, dst, (archAt archs1 dst).rows.length, row.addComp t v,
    ?_, ?_, ?_, ?_, ?_⟩
  · -- location of e after the migration
    simp only [rowsSwapRemove]
    by_cases hlast : idx + 1 = (archAt w.archetypes src).rows.length
    · rw [if_pos hlast]
      exact entSetLocation_get_self hget dst (archAt archs1 dst).rows.length
    · rw [if_neg hlast]
      have hpos : 0 < (archAt w.archetypes src).rows.length := by omega
      cases hL : (archAt w.archetypes src).rows.getLast? with
      | none =>
        rw [List.getLast?_eq_getElem?] at hL
        rw [List.getElem?_eq_none_iff] at hL
        omega
      | some last =>
        have hLidx : (archAt w.archetypes src).rows[(archAt w.archetypes src).rows.length - 1]?
            = some last := by
          rw [← List.getLast?_eq_getElem?]
          exact hL
        have hmidne : last.id.idx ≠ e.idx :=
          hdistinct ((archAt w.archetypes src).rows.length - 1) last hLidx (by omega)
        rw [show Option.map Row.id (some last) = some last.id from rfl]
        rw [entSetLocation_get_other hmidne]
        exact entSetLocation_get_self hget dst (archAt archs1 dst).rows.length
  · -- the destination archetype's type set is old ∪ {t}
    intro x
    rw [archAt_set_self (by simpa using hdstlt)]
    exact htypesiff x
  · -- e's row in the destination
    rw [archAt_set_self (by simpa using hdstlt)]
    exact List.getElem?_concat_length _ _
  · exact getComp_addComp_same hgetnone
  · intro u hu
    exact getComp_addComp_other hu

/-- Witness for C4: inserting a new component of type 8 into the concrete
one-entity world moves the entity to the `{7, 8}` archetype with both
values intact. -/
theorem insert_new_component_migrates_witness :
    entGet cexWorld.entities cexEnt = some (1, 0) ∧
    ((cexWorld.insert cexEnt 8 5).2 = .ok () ∧
     ∃ dst dstIdx row',
       entGet ((cexWorld.insert cexEnt 8 5).1).entities cexEnt = some (dst, dstIdx) ∧
       (∀ x, x ∈ (archAt ((cexWorld.insert cexEnt 8 5).1).archetypes dst).types ↔
         (x ∈ (archAt cexWorld.archetypes 1).types ∨ x = 8)) ∧
       (archAt ((cexWorld.insert cexEnt 8 5).1).archetypes dst).rows[dstIdx]?
         = some row' ∧
       row'.getComp 8 = some 5 ∧
       (∀ u, ¬ u = 8 → row'.getComp u = Row.getComp ⟨⟨0, 0⟩, [(7, 42)]⟩ u)) :=
  ⟨by decide,
   insert_new_component_migrates cexWorld cexEnt 8 5 1 0 ⟨⟨0, 0⟩, [(7, 42)]⟩
     (by decide) (by decide) (by decide) (by decide) (by decide)
     (by
       intro j r' hj hne
       have hlt : j < (archAt cexWorld.archetypes 1).rows.length :=
         (List.getElem?_eq_some_iff.mp hj).1
       have hlen1 : (archAt cexWorld.archetypes 1).rows.length = 1 := by decide
       omega)⟩

/-! ## Relation subsystem (src/relation/mod.rs)

`Origin<R>` pairs a target id with the relation value (embedded as a
`Nat`).  Relation hooks are observable events; the default hooks do
nothing, and `on_set`'s return value is a parameter.  Deferred encoder
work is a queue of the four action shapes the relation code records:
the `clear_one` custom that edits the target's `TargetComponent`, the
`TargetComponent::on_drop` custom that edits an origin's
`OriginComponent`, and the two `remove_component` requests. -/

/-- `Origin<R>`: the target entity and the relation value. -/
structure Origin where
  target : EntityId
  relation : Nat
deriving DecidableEq

/-- Observable relation hook invocations. -/
inductive RelHookEv where
  | onSet (value : Nat) (entity target newTarget : EntityId)
  | onDrop (entity target : EntityId)
  | onTargetDrop (entity target : EntityId)
deriving DecidableEq

/-- Deferred actions recorded by the relation code into the encoder. -/
inductive RelAct where
  | targetSideDrop (a b : EntityId)
  | originSideDrop (a b : EntityId)
  | removeOriginComp (a : EntityId)
  | removeTargetComp (b : EntityId)
deriving DecidableEq

/-- `OriginComponent::clear_one` (src/relation/mod.rs lines 249-271):
symmetric relations touch the mirrored `OriginComponent` (directly for
exclusive ones, through a custom action otherwise, and never for a
self-relation); non-symmetric relations enqueue the custom action that
removes the origin from the target's `TargetComponent`. -/
def clear_one (symm excl : Bool) (origin : Origin) (entity : EntityId) :
    List RelAct :=
  if symm then
    if ¬ origin.target = entity then
      if excl then [.removeOriginComp origin.target]
      else [.originSideDrop origin.target entity]
    else []
  else [.targetSideDrop entity origin.target]

/-- `OriginComponent::set_one` (src/relation/mod.rs lines 223-247): calls
`on_set` on the displaced entry; when it returns true, `on_drop` follows;
symmetric relations also fire `on_target_drop`; when the target actually
changed, `clear_one` records the deferred cleanup; finally the entry is
replaced.  Returns the new entry, the hook events in call order, and the
recorded deferred actions. -/
def set_one (symm excl onSetRet : Bool) (origin newOrigin : Origin)
    (entity : EntityId) : Origin × List RelHookEv × List RelAct :=
  ( newOrigin,
    [.onSet newOrigin.relation entity origin.target newOrigin.target]
      ++ (if onSetRet then [.onDrop entity origin.target] else [])
      ++ (if symm then [.onTargetDrop origin.target entity] else []),
    if ¬ newOrigin.target = origin.target then clear_one symm excl origin entity
    else [] )

/-- `OriginComponent::add` for an EXCLUSIVE relation (src/relation/mod.rs
lines 142-146): the single stored entry is replaced via `set_one`.  The
exclusive arm of the `OriginComponent` union stores exactly one
`Origin`, so an origin entity can never hold more than one entry. -/
def exclusiveAdd (symm onSetRet : Bool) (origin : Origin) (entity : EntityId)
    (target : EntityId) (relation : Nat) : Origin × List RelHookEv × List RelAct :=
  set_one symm true onSetRet origin ⟨target, relation⟩ entity

/-- Recognizes `on_set` events. -/
def isOnSetEv : RelHookEv → Bool
  | .onSet _ _ _ _ => true
  | _ => false

/-- Recognizes `on_drop` events. -/
def isOnDropEv : RelHookEv → Bool
  | .onDrop _ _ => true
  | _ => false

/-- C7: replacing the single entry of an EXCLUSIVE relation origin via
`add(A, R, C)` over an existing `(A, R, B)` leaves `A`'s stored origin at
`C`; the hook log contains exactly one `on_set`, with displaced target `B`
and new target `C`, and exactly one `on_drop` for the displaced `(A, R, B)`
entry when `on_set` returned true — none when it returned false.  The
exclusive component stores a single `Origin`, so at most one origin entry
exists by construction. -/
theorem exclusive_relation_replacement (symm onSetRet : Bool)
    (A B C : EntityId) (rOld rNew : Nat) :
    (exclusiveAdd symm onSetRet ⟨B, rOld⟩ A C rNew).1 = ⟨C, rNew⟩ ∧
    ((exclusiveAdd symm onSetRet ⟨B, rOld⟩ A C rNew).2.1).filter isOnSetEv
      = [.onSet rNew A B C] ∧
    ((exclusiveAdd symm onSetRet ⟨B, rOld⟩ A C rNew).2.1).filter isOnDropEv
      = (if onSetRet then [.onDrop A B] else []) := by
  cases symm <;> cases onSetRet <;>
    simp [exclusiveAdd, set_one, isOnSetEv, isOnDropEv]

/-! ## Non-symmetric, non-exclusive relations and their deferred cleanup

State of the relation components across entities, for one non-symmetric,
non-exclusive relation type with default (no-op) hooks: per entity an
optional `OriginComponent` (vector of `Origin`) and an optional
`TargetComponent` (vector of origin ids).  The deferred actions recorded
by drops run after the triggering call returns (`with_encoder`). -/

/-- Relation component state of the world for one relation type `R`. -/
structure RelState where
  origins : EntityId → Option (List Origin)
  targets : EntityId → Option (List EntityId)

/-- Point update of the origins map. -/
def updOrigins (s : RelState) (x : EntityId) (v : Option (List Origin)) : RelState :=
  { s with origins := fun y => if y = x then v else s.origins y }

/-- Point update of the targets map. -/
def updTargets (s : RelState) (x : EntityId) (v : Option (List EntityId)) : RelState :=
  { s with targets := fun y => if y = x then v else s.targets y }

/-- `OriginComponent::add` for a non-exclusive relation (src/relation/mod.rs
lines 126-141): an existing entry with the same target is replaced in
place by `set_one` (which, the targets being equal and the hooks default,
records nothing); otherwise the entry is pushed. -/
def originAddNE (l : List Origin) (target : EntityId) (rel : Nat) : List Origin :=
  match l.findIdx? (fun o => decide (o.target = target)) with
  | some i => l.set i ⟨target, rel⟩
  | none => l ++ [⟨target, rel⟩]

/-- `World::add_relation_with_encoder`, non-symmetric branch
(src/world/mod.rs lines 772-790): `insert_component` of the
`OriginComponent` on the origin entity (create-or-add), then
`insert_component` of the `TargetComponent` on the target entity
(create-or-push; `TargetComponent::add` pushes unconditionally). -/
def addRelNE (s : RelState) (a b : EntityId) (rel : Nat) : RelState :=
  let newOrigins :=
    match s.origins a with
    | some l => originAddNE l b rel
    | none => [⟨b, rel⟩]
  let newTargets :=
    match s.targets b with
    | some l => l ++ [a]
    | none => [a]
  updTargets (updOrigins s a (some newOrigins)) b (some newTargets)

/-- `OriginComponent::remove` (src/relation/mod.rs lines 155-168) as
reached from `World::drop_relation_with_encoder`: find the entry with the
given target; `drop_one` records the `clear_one` custom action, the entry
is swap-removed, and an emptied vector requests its own removal.  Returns
the new state and the recorded deferred actions. -/
def dropRelNE (s : RelState) (a b : EntityId) : RelState × List RelAct :=
  match s.origins a with
  | none => (s, [])
  | some l =>
    match l.findIdx? (fun o => decide (o.target = b)) with
    | none => (s, [])
    | some i =>
      ( updOrigins s a (some (listSwapRemove l i)),
        [.targetSideDrop a b]
          ++ (if (listSwapRemove l i).isEmpty then [.removeOriginComp a] else []) )

/-- One deferred action against the relation state, returning the actions
it records in turn.  `targetSideDrop` is `TargetComponent::on_origin_drop`
(swap-remove the origin, request removal when emptied);
`originSideDrop` is `OriginComponent::on_target_drop`; the two
`remove_*Comp` actions drop the component, running its `Component::on_drop`
hook over the remaining entries (src/relation/mod.rs lines 193-212,
279-283, 332-344, 352-365). -/
def execRelAct (s : RelState) (act : RelAct) : RelState × List RelAct :=
  match act with
  | .targetSideDrop a b =>
    match s.targets b with
    | none => (s, [])
    | some l =>
      match l.findIdx? (fun x => decide (x = a)) with
      | none =>
        (s, if l.isEmpty then [.removeTargetComp b] else [])
      | some i =>
        ( updTargets s b (some (listSwapRemove l i)),
          if (listSwapRemove l i).isEmpty then [.removeTargetComp b] else [] )
  | .originSideDrop a b =>
    match s.origins a with
    | none => (s, [])
    | some l =>
      match l.findIdx? (fun o => decide (o.target = b)) with
      | none =>
        (s, if l.isEmpty then [.removeOriginComp a] else [])
      | some i =>
        ( updOrigins s a (some (listSwapRemove l i)),
          if (listSwapRemove l i).isEmpty then [.removeOriginComp a] else [] )
  | .removeOriginComp a =>
    match s.origins a with
    | none => (s, [])
    | some l =>
      (updOrigins s a none, l.map (fun o => .targetSideDrop a o.target))
  | .removeTargetComp b =>
    match s.targets b with
    | none => (s, [])
    | some l =>
      (updTargets s b none, l.map (fun x => .originSideDrop x b))

/-- FIFO execution of the deferred-action queue with a step budget; new
actions go to the back (`ActionBuffer::execute`). -/
def execRelQueue : Nat → RelState → List RelAct → RelState
  | 0, s, _ => s
  | Nat.succ _, s, [] => s
  | Nat.succ fuel, s, act :: rest =>
    execRelQueue fuel (execRelAct s act).1 (rest ++ (execRelAct s act).2)

/-- `add_relation` followed by running the encoder (no deferred actions
are recorded on this path for default hooks). -/
def addRelFull (s : RelState) (a b : EntityId) (rel : Nat) : RelState :=
  addRelNE s a b rel

/-- `drop_relation` followed by running the encoder; at most four actions
ever run on this path, so a budget of 8 is never exhausted. -/
def dropRelFull (s : RelState) (a b : EntityId) : RelState :=
  execRelQueue 8 (dropRelNE s a b).1 (dropRelNE s a b).2

/-- Targets recorded in an entity's `OriginComponent` (empty when the
component is absent). -/
def originTargets (s : RelState) (a : EntityId) : List EntityId :=
  ((s.origins a).getD []).map Origin.target

/-- Origins recorded in an entity's `TargetComponent` (empty when the
component is absent). -/
def targetOrigins (s : RelState) (b : EntityId) : List EntityId :=
  (s.targets b).getD []

/-- Relation-state well-formedness: the origin/target duality, no
duplicate origin records, and no empty-but-present component (the code
removes a component as soon as its vector empties). -/
def WfRel (s : RelState) : Prop :=
  (∀ a b, b ∈ originTargets s a ↔ a ∈ targetOrigins s b) ∧
  (∀ b, (targetOrigins s b).Nodup) ∧
  (∀ a, s.origins a ≠ some []) ∧
  (∀ b, s.targets b ≠ some [])

theorem not_mem_listSwapRemove_of_nodup {α : Type} {l : List α} {i : Nat} {a : α}
    (hnd : l.Nodup) (hi : l[i]? = some a) : a ∉ listSwapRemove l i := by
  obtain ⟨hilt, hia⟩ := List.getElem?_eq_some_iff.mp hi
  intro hmem
  unfold listSwapRemove at hmem
  cases hL : l.getLast? with
  | none => simp [hL] at hmem
  | some last =>
    rw [hL] at hmem
    rw [List.mem_iff_getElem?] at hmem
    obtain ⟨j, hj⟩ := hmem
    rw [List.getElem?_dropLast] at hj
    by_cases hjlt : j < (l.set i last).length - 1
    · rw [if_pos hjlt] at hj
      rw [List.getElem?_set] at hj
      rw [List.length_set] at hjlt
      by_cases hij : i = j
      · rw [if_pos hij, if_pos hilt] at hj
        have hlast : last = a := by
          have := Option.some.inj hj
          exact this
        have hlen : l[l.length - 1]? = some a := by
          rw [← List.getLast?_eq_getElem?, hL, hlast]
        have hne : j ≠ l.length - 1 := by omega
        have : j = l.length - 1 := by
          refine List.getElem?_inj ?_ hnd ?_
          · omega
          · rw [hlen, ← hij, hi]
        exact hne this
      · rw [if_neg hij] at hj
        have : i = j := by
          refine List.getElem?_inj hilt hnd ?_
          rw [hi, hj]
        exact hij this
    · rw [if_neg hjlt] at hj
      exact absurd hj (by simp)

/-- Target-side duality for the NON-exclusive arm: adding `(a, R, b)`
leaves `a` in the origins vector of `b`'s `TargetComponent`; after
`drop_relation(a, R, b)` and the deferred encoder actions, `a` is no
longer in that vector; and the vector is never left empty-but-present. -/
theorem nonexclusive_target_dual (s : RelState) (a b : EntityId) (rel : Nat)
    (hwf : WfRel s) :
    a ∈ targetOrigins (addRelFull s a b rel) b ∧
    a ∉ targetOrigins (dropRelFull s a b) b ∧
    (dropRelFull s a b).targets b ≠ some [] := by
  obtain ⟨hdual, hnd, hone, htne⟩ := hwf
  refine ⟨?_, ?_⟩
  · cases hT : s.targets b with
    | none => simp [addRelFull, addRelNE, targetOrigins, updTargets, hT]
    | some l => simp [addRelFull, addRelNE, targetOrigins, updTargets, hT]
  · cases hO : s.origins a with
    | none =>
      have hst : dropRelFull s a b = s := by
        simp [dropRelFull, dropRelNE, hO, execRelQueue]
      rw [hst]
      refine ⟨fun hmem => ?_, htne b⟩
      have hb : b ∈ originTargets s a := (hdual a b).mpr hmem
      simp [originTargets, hO] at hb
    | some l =>
      cases hF : l.findIdx? (fun o => decide (o.target = b)) with
      | none =>
        have hst : dropRelFull s a b = s := by
          simp [dropRelFull, dropRelNE, hO, hF, execRelQueue]
        rw [hst]
        refine ⟨fun hmem => ?_, htne b⟩
        have hb : b ∈ originTargets s a := (hdual a b).mpr hmem
        rw [List.findIdx?_eq_none_iff] at hF
        simp [originTargets, hO] at hb
        obtain ⟨o, ho, hot⟩ := hb
        have := hF o ho
        simp [hot] at this
      | some i =>
        have hbmem : b ∈ originTargets s a := by
          rw [List.findIdx?_eq_some_iff_getElem] at hF
          obtain ⟨hlt, hp, _⟩ := hF
          simp only [decide_eq_true_eq] at hp
          simp only [originTargets, hO, Option.getD_some, List.mem_map]
          exact ⟨l[i], List.getElem_mem hlt, hp⟩
        have hamem : a ∈ targetOrigins s b := (hdual a b).mp hbmem
        cases hT : s.targets b with
        | none => rw [targetOrigins, hT] at hamem; simp at hamem
        | some m =>
          have ham : a ∈ m := by
            rw [targetOrigins, hT] at hamem; simpa using hamem
          cases hJ : m.findIdx? (fun x => decide (x = a)) with
          | none =>
            rw [List.findIdx?_eq_none_iff] at hJ
            have := hJ a ham
            simp at this
          | some j =>
            have hja : m[j]? = some a := by
              rw [List.findIdx?_eq_some_iff_getElem] at hJ
              obtain ⟨hlt, hp, _⟩ := hJ
              simp only [decide_eq_true_eq] at hp
              exact List.getElem?_eq_some_iff.mpr ⟨hlt, hp⟩
            have hndm : m.Nodup := by
              have := hnd b
              rw [targetOrigins, hT] at this; simpa using this
            have hnotmem : a ∉ listSwapRemove m j :=
              not_mem_listSwapRemove_of_nodup hndm hja
            cases hl : (listSwapRemove l i).isEmpty <;>
              cases hm : (listSwapRemove m j).isEmpty
            · constructor
              · intro hmem
                rw [show dropRelFull s a b
                    = updTargets (updOrigins s a (some (listSwapRemove l i))) b
                        (some (listSwapRemove m j)) from by
                  simp [dropRelFull, dropRelNE, hO, hF, hl, execRelQueue,
                    execRelAct, updOrigins, hT, hJ, hm]] at hmem
                rw [targetOrigins] at hmem
                simp [updTargets] at hmem
                exact hnotmem hmem
              · rw [show dropRelFull s a b
                    = updTargets (updOrigins s a (some (listSwapRemove l i))) b
                        (some (listSwapRemove m j)) from by
                  simp [dropRelFull, dropRelNE, hO, hF, hl, execRelQueue,
                    execRelAct, updOrigins, hT, hJ, hm]]
                simp [updTargets]
                simp [List.isEmpty_iff] at hm
                exact hm
            · have hm' : listSwapRemove m j = [] := List.isEmpty_iff.mp hm
              have hst : (dropRelFull s a b).targets b = none := by
                simp [dropRelFull, dropRelNE, hO, hF, hl, execRelQueue,
                  execRelAct, updOrigins, updTargets, hT, hJ, hm, hm']
              refine ⟨fun hmem => ?_, by rw [hst]; simp⟩
              rw [targetOrigins, hst] at hmem; simp at hmem
            · have hl' : listSwapRemove l i = [] := List.isEmpty_iff.mp hl
              constructor
              · intro hmem
                rw [show dropRelFull s a b
                    = updOrigins (updTargets (updOrigins s a
                        (some (listSwapRemove l i))) b (some (listSwapRemove m j)))
                        a none from by
                  simp [dropRelFull, dropRelNE, hO, hF, hl, execRelQueue,
                    execRelAct, updOrigins, updTargets, hT, hJ, hm, hl']] at hmem
                rw [targetOrigins] at hmem
                simp [updOrigins, updTargets] at hmem
                exact hnotmem hmem
              · rw [show dropRelFull s a b
                    = updOrigins (updTargets (updOrigins s a
                        (some (listSwapRemove l i))) b (some (listSwapRemove m j)))
                        a none from by
                  simp [dropRelFull, dropRelNE, hO, hF, hl, execRelQueue,
                    execRelAct, updOrigins, updTargets, hT, hJ, hm, hl']]
                simp [updOrigins, updTargets]
                simp [List.isEmpty_iff] at hm
                exact hm
            · have hl' : listSwapRemove l i = [] := List.isEmpty_iff.mp hl
              have hm' : listSwapRemove m j = [] := List.isEmpty_iff.mp hm
              have hst : (dropRelFull s a b).targets b = none := by
                simp [dropRelFull, dropRelNE, hO, hF, hl, execRelQueue,
                  execRelAct, updOrigins, updTargets, hT, hJ, hm, hl', hm']
              refine ⟨fun hmem => ?_, by rw [hst]; simp⟩
              rw [targetOrigins, hst] at hmem; simp at hmem

/-! ## Exclusive non-symmetric relations

The EXCLUSIVE arm of the `OriginComponent` union stores a single `Origin`
(src/relation/mod.rs lines 87-90, 108-117).  `add` replaces it via
`set_one` (lines 142-146); `remove` requests deferred removal of the whole
component when the single target matches (lines 169-174); the component's
`Component::on_drop` runs `drop_one` over the stored entry (lines
279-283), whose `clear_one` records the target-side cleanup; and the
exclusive arm of `TargetComponent::on_drop` requests removal of each
remaining origin's `OriginComponent` directly (lines 352-357). -/

/-- Relation component state for one EXCLUSIVE non-symmetric relation:
per entity an optional single `Origin` and an optional `TargetComponent`
origins vector. -/
structure ExRelState where
  origins : EntityId → Option Origin
  targets : EntityId → Option (List EntityId)

/-- Point update of the exclusive origins map. -/
def updExOrigins (s : ExRelState) (x : EntityId) (v : Option Origin) : ExRelState :=
  { s with origins := fun y => if y = x then v else s.origins y }

/-- Point update of the exclusive-state targets map. -/
def updExTargets (s : ExRelState) (x : EntityId) (v : Option (List EntityId)) : ExRelState :=
  { s with targets := fun y => if y = x then v else s.targets y }

/-- Deferred actions reachable on the exclusive non-symmetric paths:
`targetSideDrop` is the `clear_one` custom action running
`TargetComponent::on_origin_drop`; the `remove*Comp` actions drop a
component, running its `Component::on_drop` hook. -/
inductive ExRelAct where
  | targetSideDrop (a b : EntityId)
  | removeOriginComp (a : EntityId)
  | removeTargetComp (b : EntityId)

/-- One deferred action against the exclusive relation state.
`removeOriginComp` drops the `OriginComponent`, whose `on_drop` runs
`drop_one`/`clear_one` for the single stored entry, recording the
target-side cleanup (src/relation/mod.rs lines 214-221, 249-271, 279-283);
`removeTargetComp` drops the `TargetComponent`, whose `on_drop` in the
EXCLUSIVE case requests removal of each remaining origin's
`OriginComponent` (lines 352-357). -/
def execExRelAct (s : ExRelState) (act : ExRelAct) : ExRelState × List ExRelAct :=
  match act with
  | .targetSideDrop a b =>
    match s.targets b with
    | none => (s, [])
    | some l =>
      match l.findIdx? (fun x => decide (x = a)) with
      | none =>
        (s, if l.isEmpty then [.removeTargetComp b] else [])
      | some i =>
        ( updExTargets s b (some (listSwapRemove l i)),
          if (listSwapRemove l i).isEmpty then [.removeTargetComp b] else [] )
  | .removeOriginComp a =>
    match s.origins a with
    | none => (s, [])
    | some o => (updExOrigins s a none, [.targetSideDrop a o.target])
  | .removeTargetComp b =>
    match s.targets b with
    | none => (s, [])
    | some l => (updExTargets s b none, l.map (fun x => .removeOriginComp x))

/-- FIFO execution of the exclusive deferred-action queue with a step
budget; new actions go to the back (`ActionBuffer::execute`). -/
def execExRelQueue : Nat → ExRelState → List ExRelAct → ExRelState
  | 0, s, _ => s
  | Nat.succ _, s, [] => s
  | Nat.succ fuel, s, act :: rest =>
    execExRelQueue fuel (execExRelAct s act).1 (rest ++ (execExRelAct s act).2)

/-- `World::add_relation_with_encoder`, non-symmetric branch, for an
EXCLUSIVE relation: `insert_component` of the `OriginComponent` on the
origin (create, or replace the single entry via `set_one`, whose
`clear_one` records the old target's cleanup when the target changed —
src/relation/mod.rs lines 142-146, 223-247), then `insert_component` of
the `TargetComponent` on the target (create-or-push).  Returns the new
state and the recorded deferred actions. -/
def addRelExNE (s : ExRelState) (a b : EntityId) (rel : Nat) : ExRelState × List ExRelAct :=
  let acts :=
    match s.origins a with
    | some o => if b = o.target then [] else [ExRelAct.targetSideDrop a o.target]
    | none => []
  let newTargets :=
    match s.targets b with
    | some l => l ++ [a]
    | none => [a]
  (updExTargets (updExOrigins s a (some ⟨b, rel⟩)) b (some newTargets), acts)

/-- `add_relation` (exclusive) followed by running the encoder. -/
def addRelExFull (s : ExRelState) (a b : EntityId) (rel : Nat) : ExRelState :=
  execExRelQueue 8 (addRelExNE s a b rel).1 (addRelExNE s a b rel).2

/-- `OriginComponent::remove`, EXCLUSIVE arm (src/relation/mod.rs lines
169-174), as reached from `World::drop_relation_with_encoder`: when the
single stored target matches, removal of the whole component is
deferred; nothing happens otherwise. -/
def dropRelExNE (s : ExRelState) (a b : EntityId) : ExRelState × List ExRelAct :=
  match s.origins a with
  | none => (s, [])
  | some o => if o.target = b then (s, [ExRelAct.removeOriginComp a]) else (s, [])

/-- `drop_relation` (exclusive) followed by running the encoder; at most
three actions ever run on this path, so a budget of 8 is never
exhausted. -/
def dropRelExFull (s : ExRelState) (a b : EntityId) : ExRelState :=
  execExRelQueue 8 (dropRelExNE s a b).1 (dropRelExNE s a b).2

/-- Target recorded in an entity's exclusive `OriginComponent` (empty
when the component is absent). -/
def exOriginTargets (s : ExRelState) (a : EntityId) : List EntityId :=
  match s.origins a with
  | some o => [o.target]
  | none => []

/-- Origins recorded in an entity's `TargetComponent` (empty when the
component is absent). -/
def exTargetOrigins (s : ExRelState) (b : EntityId) : List EntityId :=
  (s.targets b).getD []

/-- Well-formedness of the exclusive relation state: origin/target
duality, no duplicate origin records, no empty-but-present
`TargetComponent`. -/
def WfExRel (s : ExRelState) : Prop :=
  (∀ a b, b ∈ exOriginTargets s a ↔ a ∈ exTargetOrigins s b) ∧
  (∀ b, (exTargetOrigins s b).Nodup) ∧
  (∀ b, s.targets b ≠ some [])

/-- Adding an exclusive relation leaves the origin in the target's
`TargetComponent`, also across the deferred cleanup of a displaced old
target. -/
theorem exclusive_add_target_mem (s : ExRelState) (a b : EntityId) (rel : Nat)
    (hwf : WfExRel s) :
    a ∈ exTargetOrigins (addRelExFull s a b rel) b := by
  obtain ⟨hdual, hnd, htne⟩ := hwf
  cases hO : s.origins a with
  | none =>
    cases hT : s.targets b with
    | none =>
      simp [addRelExFull, addRelExNE, hO, hT, execExRelQueue,
        exTargetOrigins, updExOrigins, updExTargets]
    | some l =>
      simp [addRelExFull, addRelExNE, hO, hT, execExRelQueue,
        exTargetOrigins, updExOrigins, updExTargets]
  | some o =>
    by_cases hbo : b = o.target
    · subst hbo
      cases hT : s.targets o.target with
      | none =>
        simp [addRelExFull, addRelExNE, hO, hT, execExRelQueue,
          exTargetOrigins, updExOrigins, updExTargets]
      | some l =>
        simp [addRelExFull, addRelExNE, hO, hT, execExRelQueue,
          exTargetOrigins, updExOrigins, updExTargets]
    · have hob : ¬ o.target = b := fun h => hbo h.symm
      have hmem_ot : a ∈ exTargetOrigins s o.target := by
        refine (hdual a o.target).mp ?_
        simp [exOriginTargets, hO]
      cases hT2 : s.targets o.target with
      | none => rw [exTargetOrigins, hT2] at hmem_ot; simp at hmem_ot
      | some m =>
        have ham : a ∈ m := by
          rw [exTargetOrigins, hT2] at hmem_ot; simpa using hmem_ot
        cases hJ : m.findIdx? (fun x => decide (x = a)) with
        | none =>
          rw [List.findIdx?_eq_none_iff] at hJ
          have := hJ a ham
          simp at this
        | some j =>
          cases hT : s.targets b with
          | none =>
            cases hm : (listSwapRemove m j).isEmpty
            · simp [addRelExFull, addRelExNE, hO, hbo, hob, hT, hT2, hJ, hm,
                execExRelQueue, execExRelAct, exTargetOrigins,
                updExOrigins, updExTargets]
            · have hm' : listSwapRemove m j = [] := List.isEmpty_iff.mp hm
              simp [addRelExFull, addRelExNE, hO, hbo, hob, hT, hT2, hJ, hm, hm',
                execExRelQueue, execExRelAct, exTargetOrigins,
                updExOrigins, updExTargets]
          | some l =>
            cases hm : (listSwapRemove m j).isEmpty
            · simp [addRelExFull, addRelExNE, hO, hbo, hob, hT, hT2, hJ, hm,
                execExRelQueue, execExRelAct, exTargetOrigins,
                updExOrigins, updExTargets]
            · have hm' : listSwapRemove m j = [] := List.isEmpty_iff.mp hm
              simp [addRelExFull, addRelExNE, hO, hbo, hob, hT, hT2, hJ, hm, hm',
                execExRelQueue, execExRelAct, exTargetOrigins,
                updExOrigins, updExTargets]

/-- Dropping an exclusive relation removes the origin from the target's
`TargetComponent` once the deferred actions have run, and never leaves
the vector empty-but-present. -/
theorem exclusive_drop_target_gone (s : ExRelState) (a b : EntityId)
    (hwf : WfExRel s) :
    a ∉ exTargetOrigins (dropRelExFull s a b) b ∧
    (dropRelExFull s a b).targets b ≠ some [] := by
  obtain ⟨hdual, hnd, htne⟩ := hwf
  cases hO : s.origins a with
  | none =>
    have hst : dropRelExFull s a b = s := by
      simp [dropRelExFull, dropRelExNE, hO, execExRelQueue]
    rw [hst]
    refine ⟨fun hmem => ?_, htne b⟩
    have hb : b ∈ exOriginTargets s a := (hdual a b).mpr hmem
    simp [exOriginTargets, hO] at hb
  | some o =>
    by_cases hob : o.target = b
    · have hamem : a ∈ exTargetOrigins s b := by
        refine (hdual a b).mp ?_
        simp [exOriginTargets, hO, hob]
      cases hT : s.targets b with
      | none => rw [exTargetOrigins, hT] at hamem; simp at hamem
      | some m =>
        have ham : a ∈ m := by
          rw [exTargetOrigins, hT] at hamem; simpa using hamem
        cases hJ : m.findIdx? (fun x => decide (x = a)) with
        | none =>
          rw [List.findIdx?_eq_none_iff] at hJ
          have := hJ a ham
          simp at this
        | some j =>
          have hja : m[j]? = some a := by
            rw [List.findIdx?_eq_some_iff_getElem] at hJ
            obtain ⟨hlt, hp, _⟩ := hJ
            simp only [decide_eq_true_eq] at hp
            exact List.getElem?_eq_some_iff.mpr ⟨hlt, hp⟩
          have hndm : m.Nodup := by
            have := hnd b
            rw [exTargetOrigins, hT] at this; simpa using this
          have hnotmem : a ∉ listSwapRemove m j :=
            not_mem_listSwapRemove_of_nodup hndm hja
          cases hm : (listSwapRemove m j).isEmpty
          · have hst : (dropRelExFull s a b).targets b
                = some (listSwapRemove m j) := by
              simp [dropRelExFull, dropRelExNE, hO, hob, execExRelQueue,
                execExRelAct, updExOrigins, updExTargets, hT, hJ, hm]
            constructor
            · intro hmem
              rw [exTargetOrigins, hst] at hmem
              exact hnotmem (by simpa using hmem)
            · rw [hst]
              intro hcon
              rw [Option.some.injEq] at hcon
              rw [hcon] at hm
              simp at hm
          · have hm' : listSwapRemove m j = [] := List.isEmpty_iff.mp hm
            have hst : (dropRelExFull s a b).targets b = none := by
              simp [dropRelExFull, dropRelExNE, hO, hob, execExRelQueue,
                execExRelAct, updExOrigins, updExTargets, hT, hJ, hm, hm']
            refine ⟨fun hmem => ?_, by rw [hst]; simp⟩
            rw [exTargetOrigins, hst] at hmem; simp at hmem
    · have hst : dropRelExFull s a b = s := by
        simp [dropRelExFull, dropRelExNE, hO, hob, execExRelQueue]
      rw [hst]
      refine ⟨fun hmem => ?_, htne b⟩
      have hb : b ∈ exOriginTargets s a := (hdual a b).mpr hmem
      simp [exOriginTargets, hO] at hb
      exact hob hb.symm

/-- C6: for a non-symmetric relation with default hooks, over any
well-formed relation state, covering BOTH arms of `OriginComponent` —
the non-exclusive vector arm and the EXCLUSIVE single-entry arm: adding
`(a, R, b)` leaves `a` in the origins vector of `b`'s `TargetComponent`;
after `drop_relation(a, R, b)` and the deferred encoder actions, `a` is
no longer in that vector; and the state never holds an empty-but-present
`TargetComponent` on `b` (the component is removed as soon as its vector
empties). -/
theorem relation_target_dual (s : RelState) (se : ExRelState) (a b : EntityId)
    (rel : Nat) (hwf : WfRel s) (hwfe : WfExRel se) :
    (a ∈ targetOrigins (addRelFull s a b rel) b ∧
      a ∉ targetOrigins (dropRelFull s a b) b ∧
      (dropRelFull s a b).targets b ≠ some []) ∧
    (a ∈ exTargetOrigins (addRelExFull se a b rel) b ∧
      a ∉ exTargetOrigins (dropRelExFull se a b) b ∧
      (dropRelExFull se a b).targets b ≠ some []) :=
  ⟨nonexclusive_target_dual s a b rel hwf,
    exclusive_add_target_mem se a b rel hwfe,
    (exclusive_drop_target_gone se a b hwfe).1,
    (exclusive_drop_target_gone se a b hwfe).2⟩

/-- A one-relation state: `(⟨0,0⟩, R=3, ⟨1,0⟩)` present, used to exercise
the drop path at concrete inputs. -/
def relOneState : RelState :=
  { origins := fun y => if y = ⟨0, 0⟩ then some [⟨⟨1, 0⟩, 3⟩] else none,
    targets := fun y => if y = ⟨1, 0⟩ then some [⟨0, 0⟩] else none }

theorem relOneState_wf : WfRel relOneState := by
  refine ⟨fun x y => ?_, fun y => ?_, fun x => ?_, fun y => ?_⟩
  · by_cases hx : x = (⟨0, 0⟩ : EntityId) <;>
      by_cases hy : y = (⟨1, 0⟩ : EntityId) <;>
      simp [relOneState, originTargets, targetOrigins, hx, hy]
  · by_cases hy : y = (⟨1, 0⟩ : EntityId) <;>
      simp [relOneState, targetOrigins, hy]
  · by_cases hx : x = (⟨0, 0⟩ : EntityId) <;> simp [relOneState, hx]
  · by_cases hy : y = (⟨1, 0⟩ : EntityId) <;> simp [relOneState, hy]

/-- A one-relation exclusive state: `(⟨0,0⟩, R=3, ⟨1,0⟩)` present, used
to exercise the exclusive drop path at concrete inputs. -/
def exRelOneState : ExRelState :=
  { origins := fun y => if y = ⟨0, 0⟩ then some ⟨⟨1, 0⟩, 3⟩ else none,
    targets := fun y => if y = ⟨1, 0⟩ then some [⟨0, 0⟩] else none }

theorem exRelOneState_wf : WfExRel exRelOneState := by
  refine ⟨fun x y => ?_, fun y => ?_, fun y => ?_⟩
  · by_cases hx : x = (⟨0, 0⟩ : EntityId) <;>
      by_cases hy : y = (⟨1, 0⟩ : EntityId) <;>
      simp [exRelOneState, exOriginTargets, exTargetOrigins, hx, hy]
  · by_cases hy : y = (⟨1, 0⟩ : EntityId) <;>
      simp [exRelOneState, exTargetOrigins, hy]
  · by_cases hy : y = (⟨1, 0⟩ : EntityId) <;> simp [exRelOneState, hy]

theorem relation_target_dual_witness :
    ((⟨0, 0⟩ : EntityId) ∈ targetOrigins (addRelFull relOneState ⟨0, 0⟩ ⟨1, 0⟩ 3) ⟨1, 0⟩ ∧
      (⟨0, 0⟩ : EntityId) ∉ targetOrigins (dropRelFull relOneState ⟨0, 0⟩ ⟨1, 0⟩) ⟨1, 0⟩ ∧
      (dropRelFull relOneState ⟨0, 0⟩ ⟨1, 0⟩).targets ⟨1, 0⟩ ≠ some []) ∧
    ((⟨0, 0⟩ : EntityId) ∈ exTargetOrigins (addRelExFull exRelOneState ⟨0, 0⟩ ⟨1, 0⟩ 3) ⟨1, 0⟩ ∧
      (⟨0, 0⟩ : EntityId) ∉ exTargetOrigins (dropRelExFull exRelOneState ⟨0, 0⟩ ⟨1, 0⟩) ⟨1, 0⟩ ∧
      (dropRelExFull exRelOneState ⟨0, 0⟩ ⟨1, 0⟩).targets ⟨1, 0⟩ ≠ some []) :=
  relation_target_dual relOneState exRelOneState ⟨0, 0⟩ ⟨1, 0⟩ 3 relOneState_wf exRelOneState_wf

end Edict
